import Mathlib

/-!
Verification development for the maze-3d repository.

The development shallowly embeds the deterministic core of the code base:

* the seeded pseudo-random generator and the recursive-backtracking maze
  generator of the maze-generator module (including its constructor and
  the start-position selection),
* the door-placement draws performed independently by the 3D scene builder
  and by the ASCII debug view,
* the collision predicate and the per-axis movement commit of the
  first-person controller.

Machine numbers are embedded exactly: the PRNG registers are unsigned 32-bit
patterns tracked as naturals reduced modulo 2^32, produced floats are kept as
their exact numerators over 2^32, and player positions are exact rationals
(every comparison appearing in the verified facts is far from the rounding
error of binary doubles, so the rational model agrees with the JS floats).
-/

/-- 2^32, the modulus that the JS mask `0xffffffff` imposes on the registers. -/
def mask32 : Nat := 4294967296

/-- One multiply-with-carry update `(36969 * (v & 65535) + (v >> 16)) & mask`
of `seededRandom`, acting on the unsigned 32-bit pattern of the JS variable.
JS `>>` is an arithmetic shift of the signed 32-bit view, so for patterns at or
above 2^31 the shifted summand is `v / 65536 - 65536`; adding `mask32` first
keeps the computation in `Nat` without changing the residue. -/
def mwcZ (v : Nat) : Nat :=
  (36969 * (v % 65536) + v % mask32 / 65536 +
    (if v % mask32 < 2147483648 then 0 else mask32 - 65536)) % mask32

/-- The companion update `(18000 * (v & 65535) + (v >> 16)) & mask`. -/
def mwcW (v : Nat) : Nat :=
  (18000 * (v % 65536) + v % mask32 / 65536 +
    (if v % mask32 < 2147483648 then 0 else mask32 - 65536)) % mask32

/-- State of the closure returned by `seededRandom`: the two 32-bit registers
`m_z` and `m_w`. -/
structure PRNGState where
  z : Nat
  w : Nat
  deriving DecidableEq, Repr

/-- Model of `seededRandom(seed)`: the initial constants 987654321 and
123456789 are dead stores, immediately overwritten by the two seeding lines,
which apply the same update formulas to the seed pattern. -/
def seededRandom (seed : Nat) : PRNGState :=
  { z := mwcZ seed, w := mwcW seed }

/-- One call of the closure returned by `seededRandom`.  The produced double is
`((m_z << 16) + (m_w & 65535)) >>> 0` divided by 2^32; the signed/unsigned
conversions cancel modulo 2^32, so the numerator is
`(m_z * 65536 + m_w % 65536) % 2^32` and the float equals `numerator / 2^32`
exactly (doubles have 53 bits of mantissa). -/
def PRNGState.next (s : PRNGState) : Nat × PRNGState :=
  let z := mwcZ s.z
  let w := mwcW s.w
  ((z * 65536 + w % 65536) % mask32, ⟨z, w⟩)

/-- The comparison `random() < 0.1` used for door draws: the double literal
`0.1` equals `429496729.6000000238… / 2^32` and the draw is an exact multiple
of `2^-32`, so the comparison holds iff the numerator is at most 429496729. -/
def ltPointOne (r : Nat) : Bool := r < 429496730

/-- The expression `Math.floor(random() * len)`: the product and the quotient
are exact in double precision for every `len` below 2^21, so the result is the
integer quotient of `numerator * len` by 2^32. -/
def randIndex (r len : Nat) : Nat := r * len / mask32

/-- The draw numerator is reduced modulo 2^32 by construction. -/
def next_fst_lt (s : PRNGState) : (s.next).1 < mask32 :=
  Nat.mod_lt _ (by decide)

/-- A JS array index `Math.floor(random() * arr.length)` is in range whenever
the array is nonempty. -/
def randIndex_lt_length {r : Nat} {α : Type} {l : List α}
    (hr : r < mask32) (hl : l ≠ []) : randIndex r l.length < l.length := by
  have hlen : 0 < l.length := List.length_pos.mpr hl
  exact Nat.div_lt_of_lt_mul ((Nat.mul_lt_mul_right hlen).mpr hr)

/-- The wall flags of one `MazeCell` (`north` is the low-z side, `south` the
high-z side, `west` the low-x side, `east` the high-x side). -/
structure Walls where
  north : Bool
  south : Bool
  east : Bool
  west : Bool
  deriving DecidableEq, Repr

/-- One cell of the generator grid, exactly the `MazeCell` interface. -/
structure MazeCell where
  x : Nat
  z : Nat
  walls : Walls
  visited : Bool
  deriving DecidableEq, Repr

def allWalls : Walls := ⟨true, true, true, true⟩

/-- The generator's 2D array `grid[x][z]`, embedded as a total function on
coordinates.  `initializeGrid` stores exactly this cell value at every
in-range coordinate; coordinates outside `width × height` (on which the JS
array holds no entry) are never read by any run on positive dimensions. -/
abbrev Grid := Nat × Nat → MazeCell

def initializeGrid : Grid :=
  fun p => { x := p.1, z := p.2, walls := allWalls, visited := false }

/-- In-place mutation of the cell object stored at coordinate `p`. -/
def Grid.setCell (g : Grid) (p : Nat × Nat) (c : MazeCell) : Grid :=
  fun q => if q = p then c else g q

/-- Model of `getNeighbors`: bounds-checked candidate cells in the source
order west, east, north, south, filtered to the unvisited ones. -/
def getNeighbors (width height : Nat) (grid : Grid) (cell : MazeCell) : List MazeCell :=
  ((if 0 < cell.x then [grid (cell.x - 1, cell.z)] else []) ++
   (if cell.x < width - 1 then [grid (cell.x + 1, cell.z)] else []) ++
   (if 0 < cell.z then [grid (cell.x, cell.z - 1)] else []) ++
   (if cell.z < height - 1 then [grid (cell.x, cell.z + 1)] else [])).filter
    (fun n => !n.visited)

/-- Model of `removeWall(current, neighbor)`: the source mutates the two cell
objects, which live in the grid at their own coordinates, so the updated cells
are written back there. -/
def removeWall (grid : Grid) (current neighbor : MazeCell) : Grid :=
  let dx : Int := (current.x : Int) - (neighbor.x : Int)
  let dz : Int := (current.z : Int) - (neighbor.z : Int)
  if dx = 1 then
    (grid.setCell (current.x, current.z)
        { current with walls := { current.walls with west := false } }).setCell
      (neighbor.x, neighbor.z) { neighbor with walls := { neighbor.walls with east := false } }
  else if dx = -1 then
    (grid.setCell (current.x, current.z)
        { current with walls := { current.walls with east := false } }).setCell
      (neighbor.x, neighbor.z) { neighbor with walls := { neighbor.walls with west := false } }
  else if dz = 1 then
    (grid.setCell (current.x, current.z)
        { current with walls := { current.walls with north := false } }).setCell
      (neighbor.x, neighbor.z) { neighbor with walls := { neighbor.walls with south := false } }
  else if dz = -1 then
    (grid.setCell (current.x, current.z)
        { current with walls := { current.walls with south := false } }).setCell
      (neighbor.x, neighbor.z) { neighbor with walls := { neighbor.walls with north := false } }
  else grid

/-- The loop state of `generate()`: the grid, the PRNG state of the stored
closure, the coordinates of `currentCell`, and the backtracking `stack`.  JS
stack entries are references into the grid, so they are kept as coordinates
and re-read from the grid. -/
structure CarveState where
  grid : Grid
  rng : PRNGState
  current : Nat × Nat
  stack : List (Nat × Nat)

inductive StepResult where
  | done : Grid → PRNGState → StepResult
  | next : CarveState → StepResult

/-- One iteration of the `while (true)` body of `generate()`.  The source
tests `neighbors.length > 0` first; matching on the (possibly empty) neighbor
list is the same case split. -/
def carveStep (width height : Nat) (st : CarveState) : StepResult :=
  match getNeighbors width height st.grid (st.grid st.current) with
  | [] =>
    match st.stack with
    | c :: rest => .next ⟨st.grid, st.rng, c, rest⟩
    | [] => .done st.grid st.rng
  | n :: ns =>
    let randomNeighbor := (n :: ns).get
      ⟨randIndex (st.rng.next).1 (n :: ns).length,
        randIndex_lt_length (next_fst_lt st.rng) (List.cons_ne_nil n ns)⟩
    let grid' := removeWall st.grid (st.grid st.current) randomNeighbor
    let grid'' := grid'.setCell (randomNeighbor.x, randomNeighbor.z)
      { grid' (randomNeighbor.x, randomNeighbor.z) with visited := true }
    .next ⟨grid'', (st.rng.next).2, (randomNeighbor.x, randomNeighbor.z),
      st.current :: st.stack⟩

/-- The `while (true)` loop of `generate()`, with explicit fuel; `generate`
supplies enough fuel for the loop to reach its `break` (proved below). -/
def carveLoop (width height : Nat) : Nat → CarveState → Option (Grid × PRNGState)
  | 0, _ => none
  | fuel + 1, st =>
    match carveStep width height st with
    | .done g rng => some (g, rng)
    | .next st' => carveLoop width height fuel st'

def generateFuel (width height : Nat) : Nat := 2 * (width * height) + 1

/-- State right after the prologue of `generate()`: `grid[0][0]` marked
visited, current cell `(0, 0)`, empty stack, PRNG seeded from `seed`. -/
def initialCarveState (seed : Nat) : CarveState :=
  { grid := initializeGrid.setCell (0, 0) { initializeGrid (0, 0) with visited := true },
    rng := seededRandom seed, current := (0, 0), stack := [] }

/-- Run of `generate()` on a generator whose stored seed is `seed`.  Returns the
final grid together with the post-generation PRNG state (the stream
continuation later consumed by `getStartPosition`). -/
def generate (width height seed : Nat) : Option (Grid × PRNGState) :=
  carveLoop width height (generateFuel width height) (initialCarveState seed)

/-- The generator object built by the constructor: dimensions, resolved seed,
the seeded `random` closure and the grid produced by `initializeGrid`. -/
structure MazeGenerator where
  width : Nat
  height : Nat
  seed : Nat
  random : PRNGState
  grid : Grid

/-- Model of `new MazeGenerator(width, height, seed?)`.  The source line
`this.seed = seed || Math.floor(Math.random() * 1000000)` replaces an omitted
seed and the falsy seed `0` by a nondeterministic draw, which is passed here
as the explicit parameter `fallbackSeed`.  The constructor performs no
validation of `width` and `height`. -/
def construct (width height : Nat) (seed : Option Nat) (fallbackSeed : Nat) : MazeGenerator :=
  let s := match seed with
    | some v => if v = 0 then fallbackSeed else v
    | none => fallbackSeed
  { width := width, height := height, seed := s, random := seededRandom s,
    grid := initializeGrid }

/-- Method `generate()` of the constructed object. -/
def MazeGenerator.runGenerate (gen : MazeGenerator) : Option (Grid × PRNGState) :=
  carveLoop gen.width gen.height (generateFuel gen.width gen.height)
    { grid := gen.grid.setCell (0, 0) { gen.grid (0, 0) with visited := true },
      rng := gen.random, current := (0, 0), stack := [] }

/-- One candidate `{ x, z, wallCount }` collected by `getStartPosition`
(the source stores `x` and `z` already in world units, `cell * 4 + 2`). -/
structure Candidate where
  x : Nat
  z : Nat
  wallCount : Nat
  deriving DecidableEq, Repr

/-- Count of present walls, `Object.values(cell.walls).filter(Boolean).length`. -/
def countWalls (w : Walls) : Nat :=
  (if w.north then 1 else 0) + (if w.south then 1 else 0) +
    (if w.east then 1 else 0) + (if w.west then 1 else 0)

/-- The filtered head of a list filtered by its own key is never empty. -/
def filter_head_ne_nil {α : Type} (f : α → Nat) (c : α) (l : List α) :
    (c :: l).filter (fun d => f d = f c) ≠ [] := by
  simp [List.filter_cons]

/-- Insert before the first element of not-smaller wall count.  The resulting
insertion sort is stable and ascending, which is the (ES2019) contract of the
source call `candidates.sort((a, b) => a.wallCount - b.wallCount)`: a stable
ascending sort is uniquely determined by the comparator, so any stable
implementation is a faithful model. -/
def insertByWallCount (a : Candidate) : List Candidate → List Candidate
  | [] => [a]
  | b :: l => if a.wallCount ≤ b.wallCount then a :: b :: l else b :: insertByWallCount a l

/-- Stable ascending sort by `wallCount`. -/
def sortByWallCount : List Candidate → List Candidate
  | [] => []
  | a :: l => insertByWallCount a (sortByWallCount l)

/-- The candidate scan of `getStartPosition()`: interior cells only (`x` and
`z` ranging from 1 to dimension − 2, in source order), keeping the cells with
at most 2 walls, with world coordinates `cell * 4 + 2` stored directly. -/
def startCandidates (width height : Nat) (grid : Grid) : List Candidate :=
  (List.range' 1 (width - 2)).flatMap fun x =>
    (List.range' 1 (height - 2)).filterMap fun z =>
      let cell := grid (x, z)
      let wallCount := countWalls cell.walls
      if wallCount ≤ 2 then some ⟨x * 4 + 2, z * 4 + 2, wallCount⟩ else none

/-- Model of `getStartPosition()`: collect the interior candidates, sort
stably by wall count, restrict to the tier of the minimal wall count and pick
one entry with a single further PRNG draw; fall back to `{x: 2, z: 2}` when no
candidate qualifies. -/
def getStartPosition (width height : Nat) (grid : Grid) (rng : PRNGState) : Nat × Nat :=
  match sortByWallCount (startCandidates width height grid) with
  | [] => (2, 2)
  | c0 :: rest =>
    let topCandidates := (c0 :: rest).filter (fun c => c.wallCount = c0.wallCount)
    let chosen := topCandidates.get
      ⟨randIndex (rng.next).1 topCandidates.length,
        randIndex_lt_length (next_fst_lt rng) (filter_head_ne_nil Candidate.wallCount c0 rest)⟩
    (chosen.x, chosen.z)

/-- The full wall layout of a grid, cell by cell in row-major order. -/
def wallLayout (width height : Nat) (g : Grid) : List (List Walls) :=
  (List.range width).map fun x => (List.range height).map fun z => (g (x, z)).walls

/-- Run `generate()` followed by `getStartPosition()`. -/
def startOfRun (width height seed : Nat) : Option (Nat × Nat) :=
  (generate width height seed).map fun pr => getStartPosition width height pr.1 pr.2

/-- One complete observable run of a constructed generator: the wall layout of
every cell after `generate()`, and the start position. -/
def runFull (width height : Nat) (seed : Option Nat) (fallbackSeed : Nat) :
    Option (List (List Walls) × (Nat × Nat)) :=
  let gen := construct width height seed fallbackSeed
  (gen.runGenerate).map fun pr =>
    (wallLayout width height pr.1, getStartPosition width height pr.1 pr.2)

/-- Decides whether a world position is the center `(cx*4 + 2, cz*4 + 2)` of
some interior cell (both grid coordinates strictly between 0 and the last
index) of a `width × height` grid. -/
def interiorStart (width height : Nat) (pos : Nat × Nat) : Bool :=
  (List.range' 1 (width - 2)).any fun cx =>
    (List.range' 1 (height - 2)).any fun cz =>
      decide (pos = (cx * 4 + 2, cz * 4 + 2))

/-- Identifier of a wall of a cell, as used by the door consumers. -/
inductive Dir where
  | north
  | south
  | east
  | west
  deriving DecidableEq, Repr

/-- The door draws of one cell in the `walls` memo of `Maze3D.tsx`: the four
walls are tested in the source order north, south, east, west, and each
present wall consumes one draw that marks it door-bearing below 0.1. -/
def maze3DCellDoors (x z : Nat) (cell : MazeCell) (rng : PRNGState) :
    List (Nat × Nat × Dir) × PRNGState :=
  let (northDoors, rng1) :=
    if cell.walls.north then
      ((if ltPointOne (rng.next).1 then [(x, z, Dir.north)] else []), (rng.next).2)
    else ([], rng)
  let (southDoors, rng2) :=
    if cell.walls.south then
      ((if ltPointOne (rng1.next).1 then [(x, z, Dir.south)] else []), (rng1.next).2)
    else ([], rng1)
  let (eastDoors, rng3) :=
    if cell.walls.east then
      ((if ltPointOne (rng2.next).1 then [(x, z, Dir.east)] else []), (rng2.next).2)
    else ([], rng2)
  let (westDoors, rng4) :=
    if cell.walls.west then
      ((if ltPointOne (rng3.next).1 then [(x, z, Dir.west)] else []), (rng3.next).2)
    else ([], rng3)
  (northDoors ++ southDoors ++ eastDoors ++ westDoors, rng4)

/-- The inner `row.forEach((cell, z) => …)` of the `Maze3D.tsx` memo. -/
def maze3DRowDoors (x : Nat) : Nat → List MazeCell → PRNGState →
    List (Nat × Nat × Dir) × PRNGState
  | _, [], rng => ([], rng)
  | z, cell :: cells, rng =>
    let (ds, rng') := maze3DCellDoors x z cell rng
    let (rest, rng'') := maze3DRowDoors x (z + 1) cells rng'
    (ds ++ rest, rng'')

/-- The outer `maze.forEach((row, x) => …)` of the `Maze3D.tsx` memo. -/
def maze3DRowsDoors : Nat → List (List MazeCell) → PRNGState →
    List (Nat × Nat × Dir) × PRNGState
  | _, [], rng => ([], rng)
  | x, row :: rows, rng =>
    let (ds, rng') := maze3DRowDoors x 0 row rng
    let (rest, rng'') := maze3DRowsDoors (x + 1) rows rng'
    (ds ++ rest, rng'')

/-- The set of door-bearing walls materialized by the 3D scene builder
(`Maze3D.tsx`), built from a fresh PRNG seeded with the maze seed. -/
def computeDoors3D (maze : List (List MazeCell)) (seed : Nat) : List (Nat × Nat × Dir) :=
  (maze3DRowsDoors 0 maze (seededRandom seed)).1

/-- The door draws of one cell in the `doorMap` reconstruction of
`printMazeASCII` in `App.tsx`, which tests the walls in the same fixed order
north, south, east, west with the same 0.1 threshold. -/
def asciiCellDoors (x z : Nat) (cell : MazeCell) (rng : PRNGState) :
    List (Nat × Nat × Dir) × PRNGState :=
  let (northDoors, rng1) :=
    if cell.walls.north then
      ((if ltPointOne (rng.next).1 then [(x, z, Dir.north)] else []), (rng.next).2)
    else ([], rng)
  let (southDoors, rng2) :=
    if cell.walls.south then
      ((if ltPointOne (rng1.next).1 then [(x, z, Dir.south)] else []), (rng1.next).2)
    else ([], rng1)
  let (eastDoors, rng3) :=
    if cell.walls.east then
      ((if ltPointOne (rng2.next).1 then [(x, z, Dir.east)] else []), (rng2.next).2)
    else ([], rng2)
  let (westDoors, rng4) :=
    if cell.walls.west then
      ((if ltPointOne (rng3.next).1 then [(x, z, Dir.west)] else []), (rng3.next).2)
    else ([], rng3)
  (northDoors ++ southDoors ++ eastDoors ++ westDoors, rng4)

/-- The inner `row.forEach((cell, z) => …)` of the `doorMap` loop. -/
def asciiRowDoors (x : Nat) : Nat → List MazeCell → PRNGState →
    List (Nat × Nat × Dir) × PRNGState
  | _, [], rng => ([], rng)
  | z, cell :: cells, rng =>
    let (ds, rng') := asciiCellDoors x z cell rng
    let (rest, rng'') := asciiRowDoors x (z + 1) cells rng'
    (ds ++ rest, rng'')

/-- The outer `maze.forEach((row, x) => …)` of the `doorMap` loop. -/
def asciiRowsDoors : Nat → List (List MazeCell) → PRNGState →
    List (Nat × Nat × Dir) × PRNGState
  | _, [], rng => ([], rng)
  | x, row :: rows, rng =>
    let (ds, rng') := asciiRowDoors x 0 row rng
    let (rest, rng'') := asciiRowsDoors (x + 1) rows rng'
    (ds ++ rest, rng'')

/-- The door set reconstructed by the ASCII debug view (`printMazeASCII`),
from a fresh PRNG seeded with the same maze seed. -/
def computeDoorsASCII (maze : List (List MazeCell)) (seed : Nat) : List (Nat × Nat × Dir) :=
  (asciiRowsDoors 0 maze (seededRandom seed)).1

/-- A continuous world position, with exact rational coordinates. -/
structure Vec3 where
  x : ℚ
  y : ℚ
  z : ℚ
  deriving DecidableEq, Repr

/-- Placeholder for the JS `undefined` read on ragged input; never reached on
rectangular in-bounds accesses. -/
def defaultCell : MazeCell := { x := 0, z := 0, walls := allWalls, visited := false }

/-- The array access `maze[mazeX][mazeZ]`. -/
def cellLookup (maze : List (List MazeCell)) (mazeX mazeZ : Int) : MazeCell :=
  (maze.getD mazeX.toNat []).getD mazeZ.toNat defaultCell

/-- Model of `checkCollision(newPosition)` of the first-person controller
(identical in both controller versions in the file): map the candidate
position to a grid cell by flooring, reject out-of-bounds cells, then reject
when the local offset is within `buffer = 0.3` of a present wall. -/
def checkCollision (maze : List (List MazeCell)) (cellSize : ℚ) (newPosition : Vec3) : Bool :=
  let mazeX : Int := ⌊newPosition.x / cellSize⌋
  let mazeZ : Int := ⌊newPosition.z / cellSize⌋
  if mazeX < 0 ∨ (maze.length : Int) ≤ mazeX ∨ mazeZ < 0 ∨
      ((maze.headD []).length : Int) ≤ mazeZ then
    true
  else
    let cell := cellLookup maze mazeX mazeZ
    let localX := newPosition.x - (mazeX : ℚ) * cellSize
    let localZ := newPosition.z - (mazeZ : ℚ) * cellSize
    if cell.walls.north = true ∧ localZ < 3 / 10 then true
    else if cell.walls.south = true ∧ localZ > cellSize - 3 / 10 then true
    else if cell.walls.west = true ∧ localX < 3 / 10 then true
    else if cell.walls.east = true ∧ localX > cellSize - 3 / 10 then true
    else false

/-- The per-axis commit of the `useFrame` movement block: test the X component
against the collision predicate and commit it if free, then test the Z
component (from the possibly updated X) and commit it if free. -/
def resolveMove (maze : List (List MazeCell)) (cellSize : ℚ) (pos velocity : Vec3) : Vec3 :=
  let newPosition : Vec3 := ⟨pos.x + velocity.x, pos.y + velocity.y, pos.z + velocity.z⟩
  let afterX : Vec3 :=
    if checkCollision maze cellSize ⟨newPosition.x, pos.y, pos.z⟩ then pos
    else ⟨newPosition.x, pos.y, pos.z⟩
  if checkCollision maze cellSize ⟨afterX.x, afterX.y, newPosition.z⟩ then afterX
  else ⟨afterX.x, afterX.y, newPosition.z⟩

/-- The bounds test of `checkCollision`, stated positively: the floored cell
coordinates of the position lie inside `[0, width) × [0, height)` (width and
height read off the maze array exactly as the source does). -/
def inGridBounds (maze : List (List MazeCell)) (cellSize : ℚ) (p : Vec3) : Prop :=
  0 ≤ ⌊p.x / cellSize⌋ ∧ ⌊p.x / cellSize⌋ < (maze.length : Int) ∧
    0 ≤ ⌊p.z / cellSize⌋ ∧ ⌊p.z / cellSize⌋ < ((maze.headD []).length : Int)

/-- The out-of-bounds condition rejected by `checkCollision`. -/
def outOfBoundsPos (maze : List (List MazeCell)) (cellSize : ℚ) (p : Vec3) : Prop :=
  ⌊p.x / cellSize⌋ < 0 ∨ (maze.length : Int) ≤ ⌊p.x / cellSize⌋ ∨
    ⌊p.z / cellSize⌋ < 0 ∨ ((maze.headD []).length : Int) ≤ ⌊p.z / cellSize⌋

/-- The cell a candidate position maps to. -/
def posCell (maze : List (List MazeCell)) (cellSize : ℚ) (p : Vec3) : MazeCell :=
  cellLookup maze ⌊p.x / cellSize⌋ ⌊p.z / cellSize⌋

/-- Local offset of a position inside its cell, x component. -/
def localOffsetX (cellSize : ℚ) (p : Vec3) : ℚ :=
  p.x - (⌊p.x / cellSize⌋ : ℚ) * cellSize

/-- Local offset of a position inside its cell, z component. -/
def localOffsetZ (cellSize : ℚ) (p : Vec3) : ℚ :=
  p.z - (⌊p.z / cellSize⌋ : ℚ) * cellSize

/-- The candidate position lies within the buffer distance 0.3 of some present
wall of the cell it maps to: distance to the north wall is the local z offset,
to the south wall the cell size minus it, and likewise on the x axis. -/
def nearPresentWall (maze : List (List MazeCell)) (cellSize : ℚ) (p : Vec3) : Prop :=
  ((posCell maze cellSize p).walls.north = true ∧ localOffsetZ cellSize p < 3 / 10) ∨
  ((posCell maze cellSize p).walls.south = true ∧
    cellSize - localOffsetZ cellSize p < 3 / 10) ∨
  ((posCell maze cellSize p).walls.west = true ∧ localOffsetX cellSize p < 3 / 10) ∨
  ((posCell maze cellSize p).walls.east = true ∧
    cellSize - localOffsetX cellSize p < 3 / 10)

/-- Wall flags of the concrete scenario grid: cell (2,2) as specified by the
spec scenario, the shared boundaries of its neighbors matching symmetrically,
all other walls present. -/
def scenarioWalls (x z : Nat) : Walls :=
  if x = 2 ∧ z = 2 then ⟨true, false, true, false⟩
  else if x = 2 ∧ z = 3 then ⟨false, true, true, true⟩
  else if x = 1 ∧ z = 2 then ⟨true, true, false, true⟩
  else allWalls

/-- A concrete 5 × 5 maze containing the scenario cell (2,2) with walls
north/east present, south/west open. -/
def scenarioMaze : List (List MazeCell) :=
  (List.range 5).map fun x => (List.range 5).map fun z =>
    { x := x, z := z, walls := scenarioWalls x z, visited := true }

/-- A coordinate lies in the `width × height` grid. -/
def inBounds (width height : Nat) (p : Nat × Nat) : Prop :=
  p.1 < width ∧ p.2 < height

instance (width height : Nat) (p : Nat × Nat) : Decidable (inBounds width height p) := by
  unfold inBounds
  infer_instance

/-- Two coordinates are adjacent in the grid graph. -/
def adjacentCoords (p q : Nat × Nat) : Prop :=
  q = (p.1 + 1, p.2) ∨ p = (q.1 + 1, q.2) ∨ q = (p.1, p.2 + 1) ∨ p = (q.1, q.2 + 1)

/-- Two adjacent coordinates with the shared wall open on the side of `p`. -/
def adjOpen (g : Grid) (p q : Nat × Nat) : Prop :=
  (q = (p.1 + 1, p.2) ∧ (g p).walls.east = false) ∨
  (p = (q.1 + 1, q.2) ∧ (g p).walls.west = false) ∨
  (q = (p.1, p.2 + 1) ∧ (g p).walls.south = false) ∨
  (p = (q.1, q.2 + 1) ∧ (g p).walls.north = false)

/-- Reachability through open walls. -/
def Reach (g : Grid) : Nat × Nat → Nat × Nat → Prop :=
  Relation.ReflTransGen (adjOpen g)

def cellFinset (width height : Nat) : Finset (Nat × Nat) :=
  Finset.range width ×ˢ Finset.range height

def visitedFinset (width height : Nat) (g : Grid) : Finset (Nat × Nat) :=
  (cellFinset width height).filter fun p => (g p).visited = true

/-- Internal edges are identified by their low cell and an axis flag
(`true` for the east wall of the cell, `false` for its south wall); such an
edge is open when the corresponding wall flag is cleared and both endpoints
are in bounds. -/
def edgeOpen (width height : Nat) (g : Grid) (e : (Nat × Nat) × Bool) : Prop :=
  (e.2 = true ∧ e.1.1 + 1 < width ∧ e.1.2 < height ∧ (g e.1).walls.east = false) ∨
  (e.2 = false ∧ e.1.1 < width ∧ e.1.2 + 1 < height ∧ (g e.1).walls.south = false)

instance (width height : Nat) (g : Grid) (e : (Nat × Nat) × Bool) :
    Decidable (edgeOpen width height g e) := by
  unfold edgeOpen
  infer_instance

/-- The set of removed internal walls. -/
def edgeFinset (width height : Nat) (g : Grid) : Finset ((Nat × Nat) × Bool) :=
  ((cellFinset width height) ×ˢ (Finset.univ : Finset Bool)).filter
    (edgeOpen width height g)

def unvisitedCount (width height : Nat) (g : Grid) : Nat :=
  ((cellFinset width height).filter fun p => (g p).visited = false).card

/-- Termination measure of the carve loop: each iteration either freshly
visits a cell (unvisited count down by one, stack up by one) or pops the
stack. -/
def carveMeasure (width height : Nat) (st : CarveState) : Nat :=
  2 * unvisitedCount width height st.grid + st.stack.length

/-- Wall symmetry: the open state of every shared boundary agrees on its two
sides. -/
def WallSym (g : Grid) : Prop :=
  (∀ x z, (g (x, z)).walls.east = (g (x + 1, z)).walls.west) ∧
  (∀ x z, (g (x, z)).walls.south = (g (x, z + 1)).walls.north)

/-- Walls only ever get removed when going from `g` to `g'`. -/
def wallsMono (g g' : Grid) : Prop :=
  ∀ q, ((g q).walls.east = false → (g' q).walls.east = false) ∧
    ((g q).walls.west = false → (g' q).walls.west = false) ∧
    ((g q).walls.south = false → (g' q).walls.south = false) ∧
    ((g q).walls.north = false → (g' q).walls.north = false)

/-- The loop invariant of `generate()`. -/
structure CarveInv (width height : Nat) (st : CarveState) : Prop where
  coords : ∀ p, (st.grid p).x = p.1 ∧ (st.grid p).z = p.2
  zeroVis : (st.grid (0, 0)).visited = true
  curIn : inBounds width height st.current
  curVis : (st.grid st.current).visited = true
  stackIn : ∀ p ∈ st.stack, inBounds width height p
  stackVis : ∀ p ∈ st.stack, (st.grid p).visited = true
  unvisWalls : ∀ p, (st.grid p).visited = false → (st.grid p).walls = allWalls
  sym : WallSym st.grid
  eastBound : ∀ x z, (st.grid (x, z)).walls.east = false → x + 1 < width ∧ z < height
  southBound : ∀ x z, (st.grid (x, z)).walls.south = false → x < width ∧ z + 1 < height
  count : (edgeFinset width height st.grid).card + 1 =
    (visitedFinset width height st.grid).card
  reach : ∀ p, inBounds width height p → (st.grid p).visited = true →
    Reach st.grid (0, 0) p
  finished : ∀ p, inBounds width height p → (st.grid p).visited = true →
    p ∉ st.stack → p ≠ st.current →
    ∀ q, adjacentCoords p q → inBounds width height q → (st.grid q).visited = true

/-- What holds of the grid returned by `generate()`. -/
structure CarveFinal (width height : Nat) (g : Grid) : Prop where
  allVis : ∀ p, inBounds width height p → (g p).visited = true
  sym : WallSym g
  count : (edgeFinset width height g).card + 1 = width * height
  reach00 : ∀ p, inBounds width height p → Reach g (0, 0) p

/-- Run `k` iterations of the carve loop, returning the intermediate state
(`none` once the loop has ended). -/
def stepN (width height : Nat) : Nat → CarveState → Option CarveState
  | 0, st => some st
  | k + 1, st =>
    match carveStep width height st with
    | .next st' => stepN width height k st'
    | .done _ _ => none

set_option maxRecDepth 100000

theorem Grid.setCell_same (g : Grid) (p : Nat × Nat) (c : MazeCell) :
    (g.setCell p c) p = c := by
  simp [Grid.setCell]

theorem Grid.setCell_other (g : Grid) {p q : Nat × Nat} (c : MazeCell) (h : q ≠ p) :
    (g.setCell p c) q = g q := by
  simp [Grid.setCell, h]

theorem Grid.setCell_setCell_same (g : Grid) (p : Nat × Nat) (a b : MazeCell) :
    (g.setCell p a).setCell p b = g.setCell p b := by
  funext q
  by_cases h : q = p <;> simp [Grid.setCell, h]

theorem double_set_pointwise (g : Grid) {cur npos : Nat × Nat} (a b : MazeCell)
    (hne : cur ≠ npos) (q : Nat × Nat) :
    ((g.setCell cur a).setCell npos b) q =
      if q = npos then b else if q = cur then a else g q := by
  by_cases h1 : q = npos <;> by_cases h2 : q = cur <;> simp_all [Grid.setCell]

theorem mem_insertByWallCount {a b : Candidate} {l : List Candidate} :
    b ∈ insertByWallCount a l ↔ b = a ∨ b ∈ l := by
  induction l with
  | nil => simp [insertByWallCount]
  | cons c l ih =>
    unfold insertByWallCount
    split
    · simp
    · simp only [List.mem_cons, ih]
      tauto

theorem mem_sortByWallCount {b : Candidate} {l : List Candidate} :
    b ∈ sortByWallCount l ↔ b ∈ l := by
  induction l with
  | nil => simp [sortByWallCount]
  | cons a l ih => simp [sortByWallCount, mem_insertByWallCount, ih]

/-- C9: constructing with explicit seed 0 behaves identically to omitting the
seed — the falsy check `seed || …` replaces 0 by the nondeterministically
drawn fallback, so seed 0 does not identify a reproducible maze — while every
nonzero supplied seed is stored verbatim as the maze's identity. -/
theorem seedZero_is_falsy (width height fallbackSeed s : Nat) (hs : s ≠ 0) :
    construct width height (some 0) fallbackSeed = construct width height none fallbackSeed ∧
      (construct width height (some s) fallbackSeed).seed = s := by
  constructor
  · rfl
  · simp [construct, hs]

/-- Witness for C9 at concrete inputs. -/
theorem seedZero_is_falsy_witness :
    (42 : Nat) ≠ 0 ∧
      (construct 25 25 (some 0) 7 = construct 25 25 none 7 ∧
        (construct 25 25 (some 42) 7).seed = 42) :=
  ⟨by decide, seedZero_is_falsy 25 25 7 42 (by decide)⟩

/-- C5 counterexample: constructing with width 0 does not fail fast: the
constructor creates the complete generator state, storing the unvalidated
dimensions, the resolved seed and the seeded PRNG. -/
theorem construct_width_zero_creates_state :
    (construct 0 5 (some 7) 3).width = 0 ∧ (construct 0 5 (some 7) 3).height = 5 ∧
      (construct 0 5 (some 7) 3).seed = 7 ∧
      (construct 0 5 (some 7) 3).random = seededRandom 7 :=
  ⟨rfl, rfl, rfl, rfl⟩

/-- C5 (amended): the constructor performs no dimension validation: a width-0
or height-0 construction succeeds, stores the dimensions unchecked, and
resolves seed and PRNG state exactly as a construction with valid dimensions
does; no error is raised at construction time. -/
theorem construct_no_dimension_validation (height fallbackSeed : Nat) (seed : Option Nat) :
    (construct 0 height seed fallbackSeed).width = 0 ∧
      (construct height 0 seed fallbackSeed).height = 0 ∧
      (construct 0 height seed fallbackSeed).seed = (construct 5 5 seed fallbackSeed).seed ∧
      (construct 0 height seed fallbackSeed).random = (construct 5 5 seed fallbackSeed).random ∧
      (construct 0 height seed fallbackSeed).grid = initializeGrid :=
  ⟨rfl, rfl, rfl, rfl, rfl⟩

/-- C1 counterexample: with supplied seed 0 the constructor substitutes the
nondeterministic fallback draw, so two independent instances constructed with
the same width, height and seed (0) but different fallback draws produce
different wall layouts. -/
theorem seedZero_runs_differ :
    runFull 3 3 (some 0) 1 ≠ runFull 3 3 (some 0) 2 := by
  decide

/-- C1 (amended): for any fixed nonzero seed, two independent generator
instances constructed with the same width, height and seed produce identical
wall layouts for every cell and identical start positions, whatever the
nondeterministic fallback draws were. -/
theorem generator_deterministic_nonzero_seed (width height s fb1 fb2 : Nat) (hs : s ≠ 0) :
    runFull width height (some s) fb1 = runFull width height (some s) fb2 := by
  simp only [runFull, construct, hs, if_false, ite_false]

/-- Witness for the amended C1 at concrete inputs. -/
theorem generator_deterministic_nonzero_seed_witness :
    (42 : Nat) ≠ 0 ∧ runFull 5 5 (some 42) 0 = runFull 5 5 (some 42) 99 :=
  ⟨by decide, generator_deterministic_nonzero_seed 5 5 42 0 99 (by decide)⟩

theorem asciiCellDoors_eq_maze3D (x z : Nat) (cell : MazeCell) (rng : PRNGState) :
    asciiCellDoors x z cell rng = maze3DCellDoors x z cell rng :=
  rfl

theorem asciiRowDoors_eq_maze3D (x : Nat) (cells : List MazeCell) :
    ∀ (z : Nat) (rng : PRNGState),
      asciiRowDoors x z cells rng = maze3DRowDoors x z cells rng := by
  induction cells with
  | nil => intro z rng; rfl
  | cons c cs ih =>
    intro z rng
    simp only [asciiRowDoors, maze3DRowDoors, asciiCellDoors_eq_maze3D, ih]

theorem asciiRowsDoors_eq_maze3D (rows : List (List MazeCell)) :
    ∀ (x : Nat) (rng : PRNGState),
      asciiRowsDoors x rows rng = maze3DRowsDoors x rows rng := by
  induction rows with
  | nil => intro x rng; rfl
  | cons row rs ih =>
    intro x rng
    simp only [asciiRowsDoors, maze3DRowsDoors, asciiRowDoors_eq_maze3D, ih]

/-- C3: for every grid and seed the two consumers of the door-placement
function — the 3D scene builder and the ASCII debug view — compute identical
door sets: each seeds a fresh PRNG from the maze seed, iterates the grid
x-major then z ascending, tests walls in the order north, south, east, west,
and draws one PRNG value per present wall against the threshold 0.1. -/
theorem door_consumers_agree (maze : List (List MazeCell)) (seed : Nat) :
    computeDoors3D maze seed = computeDoorsASCII maze seed := by
  unfold computeDoors3D computeDoorsASCII
  rw [asciiRowsDoors_eq_maze3D]

/-- C7 counterexample: on a 2 × 2 maze there is no interior cell, so
`getStartPosition` falls back to the fixed world position (2, 2) — the center
of corner cell (0, 0), a cell of the outermost ring, not an interior cell. -/
theorem startPosition_fallback_is_boundary :
    startOfRun 2 2 1 = some (2, 2) ∧ interiorStart 2 2 (2, 2) = false := by
  decide

/-- C7 (amended): after generation, `getStartPosition` returns either the
world-space center `(cx*4 + 2, cz*4 + 2)` of an interior cell — chosen among
the interior cells with the fewest walls, tie-broken with the post-generation
PRNG continuation — or, when no interior cell qualifies, the fixed fallback
world position (2, 2), which is the center of corner cell (0, 0) and hence a
boundary cell on degenerate mazes; for seed 42, width 5, height 5 it returns
the interior cell center (14, 14), reproducibly. -/
theorem getStartPosition_mem_or_fallback (width height : Nat) (g : Grid) (rng : PRNGState) :
    getStartPosition width height g rng = (2, 2) ∨
      ∃ c ∈ startCandidates width height g,
        getStartPosition width height g rng = (c.x, c.z) := by
  unfold getStartPosition
  split
  · exact Or.inl rfl
  · rename_i c0 rest hsort
    right
    refine ⟨((c0 :: rest).filter (fun c => c.wallCount = c0.wallCount)).get
      ⟨randIndex (rng.next).1 _,
        randIndex_lt_length (next_fst_lt rng)
          (filter_head_ne_nil Candidate.wallCount c0 rest)⟩, ?_, rfl⟩
    have key : ∀ e : Candidate, e ∈ c0 :: rest → e ∈ startCandidates width height g := by
      intro e he
      rw [← hsort, mem_sortByWallCount] at he
      exact he
    exact key _ (List.mem_of_mem_filter (List.get_mem _ _ _))

theorem mem_startCandidates {width height : Nat} {g : Grid} {c : Candidate}
    (h : c ∈ startCandidates width height g) :
    ∃ cx ∈ List.range' 1 (width - 2), ∃ cz ∈ List.range' 1 (height - 2),
      c.x = cx * 4 + 2 ∧ c.z = cz * 4 + 2 := by
  rw [startCandidates, List.mem_flatMap] at h
  obtain ⟨cx, hcx, h⟩ := h
  rw [List.mem_filterMap] at h
  obtain ⟨cz, hcz, h⟩ := h
  simp only [] at h
  split at h
  · rw [Option.some_inj] at h
    exact ⟨cx, hcx, cz, hcz, by rw [← h], by rw [← h]⟩
  · exact absurd h (by simp)

/-- C7 (amended): after generation, `getStartPosition` returns either the
world-space center `(cx*4 + 2, cz*4 + 2)` of an interior cell — chosen among
the interior cells with the fewest walls, tie-broken with the post-generation
PRNG continuation — or, when no interior cell qualifies, the fixed fallback
world position (2, 2), which is the center of corner cell (0, 0) and hence a
boundary cell on degenerate mazes; for seed 42, width 5, height 5 it returns
the interior cell center (14, 14), reproducibly. -/
theorem startPosition_interior_unless_fallback :
    (∀ width height g rng, getStartPosition width height g rng = (2, 2) ∨
      interiorStart width height (getStartPosition width height g rng) = true) ∧
      startOfRun 5 5 42 = some (14, 14) ∧ interiorStart 5 5 (14, 14) = true := by
  refine ⟨?_, by decide, by decide⟩
  intro width height g rng
  rcases getStartPosition_mem_or_fallback width height g rng with h | ⟨c, hc, h⟩
  · exact Or.inl h
  · right
    obtain ⟨cx, hcx, cz, hcz, hx, hz⟩ := mem_startCandidates hc
    simp only [interiorStart, List.any_eq_true, decide_eq_true_eq]
    exact ⟨cx, hcx, cz, hcz, by rw [h, hx, hz]⟩

/-- C10: the collision predicate depends only on the candidate position: it
rejects exactly when the candidate's cell is out of grid bounds or the local
offset lies within the buffer 0.3 of a present wall of the cell the candidate
maps to (distance to the north wall is the local z offset, to the south wall
the cell size minus it, and correspondingly on the x axis); consequently every
accepted candidate lies at least 0.3 from every present wall of its cell. -/
theorem checkCollision_characterization (maze : List (List MazeCell)) (cellSize : ℚ)
    (p : Vec3) :
    checkCollision maze cellSize p = true ↔
      outOfBoundsPos maze cellSize p ∨ nearPresentWall maze cellSize p := by
  simp only [checkCollision, outOfBoundsPos, nearPresentWall, posCell, localOffsetX,
    localOffsetZ]
  split_ifs with h1 h2 h3 h4 h5
  · simp only [true_iff]
    exact Or.inl h1
  · simp only [true_iff]
    exact Or.inr (Or.inl ⟨h2.1, h2.2⟩)
  · simp only [true_iff]
    exact Or.inr (Or.inr (Or.inl ⟨h3.1, by linarith [h3.2]⟩))
  · simp only [true_iff]
    exact Or.inr (Or.inr (Or.inr (Or.inl ⟨h4.1, h4.2⟩)))
  · simp only [true_iff]
    exact Or.inr (Or.inr (Or.inr (Or.inr ⟨h5.1, by linarith [h5.2]⟩)))
  · simp only [Bool.false_eq_true, false_iff]
    rintro (hoob | h | h | h | h)
    · exact h1 hoob
    · exact h2 ⟨h.1, h.2⟩
    · exact h3 ⟨h.1, by linarith [h.2]⟩
    · exact h4 ⟨h.1, h.2⟩
    · exact h5 ⟨h.1, by linarith [h.2]⟩

theorem checkCollision_false_inGridBounds {maze : List (List MazeCell)} {cellSize : ℚ}
    {p : Vec3} (h : checkCollision maze cellSize p = false) :
    inGridBounds maze cellSize p := by
  simp only [checkCollision] at h
  unfold inGridBounds
  split at h
  · exact absurd h (by simp)
  · rename_i hcond
    push_neg at hcond
    exact ⟨hcond.1, hcond.2.1, hcond.2.2.1, hcond.2.2.2⟩

/-- C8: one resolved movement step keeps the player inside grid bounds: each
axis is committed only when the collision predicate — whose first test rejects
out-of-bounds cells — accepts the candidate, and a rejected axis leaves that
coordinate unchanged. -/
theorem resolveMove_stays_in_bounds (maze : List (List MazeCell)) (cellSize : ℚ)
    (pos velocity : Vec3) (h : inGridBounds maze cellSize pos) :
    inGridBounds maze cellSize (resolveMove maze cellSize pos velocity) := by
  simp only [resolveMove]
  split
  · split
    · exact h
    · rename_i hz
      exact checkCollision_false_inGridBounds (Bool.not_eq_true _ ▸ eq_false_of_ne_true hz)
  · rename_i hx
    split
    · rename_i hz
      have hxb := checkCollision_false_inGridBounds (eq_false_of_ne_true hx)
      exact ⟨hxb.1, hxb.2.1, h.2.2.1, h.2.2.2⟩
    · rename_i hz
      exact checkCollision_false_inGridBounds (eq_false_of_ne_true hz)

/-- Witness for C8 at a concrete in-bounds position of the scenario maze. -/
theorem resolveMove_stays_in_bounds_witness :
    inGridBounds scenarioMaze 4 ⟨10, 17 / 10, 81 / 10⟩ ∧
      inGridBounds scenarioMaze 4
        (resolveMove scenarioMaze 4 ⟨10, 17 / 10, 81 / 10⟩ ⟨0, 0, -(1 / 2)⟩) := by
  have h5 : scenarioMaze.length = 5 := by decide
  have h5' : (scenarioMaze.headD []).length = 5 := by decide
  have hb : inGridBounds scenarioMaze 4 ⟨10, 17 / 10, 81 / 10⟩ := by
    unfold inGridBounds
    rw [h5, h5']
    norm_num
  exact ⟨hb, resolveMove_stays_in_bounds scenarioMaze 4 _ _ hb⟩

/-- C4: evaluation of the per-axis movement resolution at the spec's concrete
scenario: the cell at (2,2) has its north wall present, yet the proposed move
from world position (10, 8.1) by delta (0, −0.5) is accepted on the Z axis:
the candidate z 7.6 maps to the neighboring cell (2,1) with local offset 3.6,
which triggers none of that cell's wall checks, so the player crosses the
closed north wall of (2,2) instead of being stopped at it. -/
theorem collision_tunneling_at_spec_scenario :
    (cellLookup scenarioMaze 2 2).walls.north = true ∧
      checkCollision scenarioMaze 4 ⟨10, 17 / 10, 76 / 10⟩ = false ∧
      resolveMove scenarioMaze 4 ⟨10, 17 / 10, 81 / 10⟩ ⟨0, 0, -(1 / 2)⟩ =
        ⟨10, 17 / 10, 76 / 10⟩ := by
  have h5 : scenarioMaze.length = 5 := by decide
  have h5' : (scenarioMaze.headD []).length = 5 := by decide
  have hfx : ⌊(10 : ℚ) / 4⌋ = 2 := by norm_num
  have hcell21 : cellLookup scenarioMaze 2 1 = ⟨2, 1, allWalls, true⟩ := by decide
  have hcell22 : cellLookup scenarioMaze 2 2 = ⟨2, 2, ⟨true, false, true, false⟩, true⟩ := by
    decide
  have hchk76 : ∀ y : ℚ, checkCollision scenarioMaze 4 ⟨10, y, 76 / 10⟩ = false := by
    intro y
    have hfz : ⌊((76 : ℚ) / 10) / 4⌋ = 1 := by norm_num
    simp only [checkCollision, h5, h5', hfx, hfz, hcell21, allWalls]
    norm_num
  have hchk81 : ∀ y : ℚ, checkCollision scenarioMaze 4 ⟨10, y, 81 / 10⟩ = true := by
    intro y
    have hfz : ⌊((81 : ℚ) / 10) / 4⌋ = 2 := by norm_num
    simp only [checkCollision, h5, h5', hfx, hfz, hcell22]
    norm_num
  refine ⟨by rw [hcell22], hchk76 _, ?_⟩
  have e1 : ((10 : ℚ) + 0) = 10 := by norm_num
  have e2 : ((81 : ℚ) / 10 + -(1 / 2)) = 76 / 10 := by norm_num
  simp only [resolveMove, e1, e2, hchk76, hchk81]
  norm_num
  have h76 := hchk76 (17 / 10)
  rw [show (76 : ℚ) / 10 = 38 / 5 by norm_num] at h76
  exact h76

theorem filter_flip_insert {α : Type} [DecidableEq α] {s : Finset α} {p p' : α → Prop}
    [DecidablePred p] [DecidablePred p'] {e : α}
    (he : e ∈ s) (hpe : ¬ p e) (hpe' : p' e)
    (hagree : ∀ x, x ≠ e → (p x ↔ p' x)) :
    s.filter p' = insert e (s.filter p) := by
  ext x
  simp only [Finset.mem_filter, Finset.mem_insert]
  constructor
  · rintro ⟨hxs, hx⟩
    by_cases hxe : x = e
    · exact Or.inl hxe
    · exact Or.inr ⟨hxs, (hagree x hxe).mpr hx⟩
  · rintro (hxe | ⟨hxs, hx⟩)
    · subst hxe
      exact ⟨he, hpe'⟩
    · by_cases hxe : x = e
      · subst hxe
        exact absurd hx hpe
      · exact ⟨hxs, (hagree x hxe).mp hx⟩

theorem filter_flip_card {α : Type} [DecidableEq α] {s : Finset α} {p p' : α → Prop}
    [DecidablePred p] [DecidablePred p'] {e : α}
    (he : e ∈ s) (hpe : ¬ p e) (hpe' : p' e)
    (hagree : ∀ x, x ≠ e → (p x ↔ p' x)) :
    (s.filter p').card = (s.filter p).card + 1 := by
  rw [filter_flip_insert he hpe hpe' hagree,
    Finset.card_insert_of_not_mem (by simp [Finset.mem_filter, hpe])]

theorem filter_flip_erase {α : Type} [DecidableEq α] {s : Finset α} {p p' : α → Prop}
    [DecidablePred p] [DecidablePred p'] {e : α}
    (hpe : p e) (hpe' : ¬ p' e)
    (hagree : ∀ x, x ≠ e → (p x ↔ p' x)) :
    s.filter p' = (s.filter p).erase e := by
  ext x
  simp only [Finset.mem_filter, Finset.mem_erase]
  constructor
  · rintro ⟨hxs, hx⟩
    have hxe : x ≠ e := fun h => hpe' (h ▸ hx)
    exact ⟨hxe, hxs, (hagree x hxe).mpr hx⟩
  · rintro ⟨hxe, hxs, hx⟩
    exact ⟨hxs, (hagree x hxe).mp hx⟩

theorem filter_flip_erase_card {α : Type} [DecidableEq α] {s : Finset α} {p p' : α → Prop}
    [DecidablePred p] [DecidablePred p'] {e : α}
    (he : e ∈ s) (hpe : p e) (hpe' : ¬ p' e)
    (hagree : ∀ x, x ≠ e → (p x ↔ p' x)) :
    (s.filter p').card + 1 = (s.filter p).card := by
  rw [filter_flip_erase hpe hpe' hagree,
    Finset.card_erase_of_mem (by simp [Finset.mem_filter, he, hpe])]
  have hmem : e ∈ s.filter p := by simp [Finset.mem_filter, he, hpe]
  have hpos : 0 < (s.filter p).card := Finset.card_pos.mpr ⟨e, hmem⟩
  omega

theorem adjacentCoords_ne {p q : Nat × Nat} (h : adjacentCoords p q) : p ≠ q := by
  intro he
  subst he
  rcases h with h | h | h | h <;> (rw [Prod.ext_iff] at h; simp at h)

theorem mem_ite_singleton {α : Type} {c : Prop} [Decidable c] {e n : α}
    (h : n ∈ if c then [e] else []) : c ∧ n = e := by
  split at h
  · rename_i hc
    exact ⟨hc, List.mem_singleton.mp h⟩
  · exact absurd h (List.not_mem_nil n)

theorem mem_getNeighbors_facts {width height : Nat} {g : Grid} {cur : Nat × Nat}
    {n : MazeCell}
    (hcoords : ∀ p, (g p).x = p.1 ∧ (g p).z = p.2)
    (hcur : inBounds width height cur)
    (hmem : n ∈ getNeighbors width height g (g cur)) :
    n.visited = false ∧ inBounds width height (n.x, n.z) ∧ g (n.x, n.z) = n ∧
      adjacentCoords cur (n.x, n.z) := by
  unfold getNeighbors at hmem
  rw [List.mem_filter] at hmem
  obtain ⟨hmem, hunvis⟩ := hmem
  obtain ⟨hcw, hch⟩ := hcur
  rw [(hcoords cur).1, (hcoords cur).2] at hmem
  refine ⟨by simpa using hunvis, ?_⟩
  simp only [List.mem_append] at hmem
  rcases hmem with ((h | h) | h) | h
  · obtain ⟨hc, hn⟩ := mem_ite_singleton h
    subst hn
    rw [(hcoords (cur.1 - 1, cur.2)).1, (hcoords (cur.1 - 1, cur.2)).2]
    refine ⟨⟨by omega, hch⟩, rfl, Or.inr (Or.inl ?_)⟩
    rw [Prod.ext_iff]
    simp
    omega
  · obtain ⟨hc, hn⟩ := mem_ite_singleton h
    subst hn
    rw [(hcoords (cur.1 + 1, cur.2)).1, (hcoords (cur.1 + 1, cur.2)).2]
    exact ⟨⟨by omega, hch⟩, rfl, Or.inl rfl⟩
  · obtain ⟨hc, hn⟩ := mem_ite_singleton h
    subst hn
    rw [(hcoords (cur.1, cur.2 - 1)).1, (hcoords (cur.1, cur.2 - 1)).2]
    refine ⟨⟨hcw, by omega⟩, rfl, Or.inr (Or.inr (Or.inr ?_))⟩
    rw [Prod.ext_iff]
    simp
    omega
  · obtain ⟨hc, hn⟩ := mem_ite_singleton h
    subst hn
    rw [(hcoords (cur.1, cur.2 + 1)).1, (hcoords (cur.1, cur.2 + 1)).2]
    exact ⟨⟨hcw, by omega⟩, rfl, Or.inr (Or.inr (Or.inl rfl))⟩

theorem getNeighbors_nil_all_visited {width height : Nat} {g : Grid} {cur : Nat × Nat}
    (hcoords : ∀ p, (g p).x = p.1 ∧ (g p).z = p.2)
    (hnil : getNeighbors width height g (g cur) = [])
    {q : Nat × Nat} (hadj : adjacentCoords cur q) (hq : inBounds width height q) :
    (g q).visited = true := by
  cases hb : (g q).visited
  · exfalso
    have hq_mem : g q ∈ getNeighbors width height g (g cur) := by
      unfold getNeighbors
      rw [List.mem_filter]
      refine ⟨?_, by simp [hb]⟩
      rw [(hcoords cur).1, (hcoords cur).2]
      simp only [List.mem_append]
      rcases hadj with h | h | h | h
      · left; left; right
        have hc : cur.1 < width - 1 := by
          have h1 := hq.1
          rw [h] at h1
          simp at h1
          omega
        rw [if_pos hc, h]
        exact List.mem_singleton.mpr rfl
      · left; left; left
        rw [Prod.ext_iff] at h
        simp at h
        have hc : 0 < cur.1 := by omega
        rw [if_pos hc]
        have : (cur.1 - 1, cur.2) = q := by
          rw [Prod.ext_iff]
          simp
          omega
        rw [this]
        exact List.mem_singleton.mpr rfl
      · right
        have hc : cur.2 < height - 1 := by
          have h1 := hq.2
          rw [h] at h1
          simp at h1
          omega
        rw [if_pos hc, h]
        exact List.mem_singleton.mpr rfl
      · left; right
        rw [Prod.ext_iff] at h
        simp at h
        have hc : 0 < cur.2 := by omega
        rw [if_pos hc]
        have : (cur.1, cur.2 - 1) = q := by
          rw [Prod.ext_iff]
          simp
          omega
        rw [this]
        exact List.mem_singleton.mpr rfl
    rw [hnil] at hq_mem
    exact List.not_mem_nil _ hq_mem
  · rfl

theorem adjOpen_mono {g g' : Grid} (hm : wallsMono g g') {p q : Nat × Nat}
    (h : adjOpen g p q) : adjOpen g' p q := by
  rcases h with ⟨h1, h2⟩ | ⟨h1, h2⟩ | ⟨h1, h2⟩ | ⟨h1, h2⟩
  · exact Or.inl ⟨h1, (hm p).1 h2⟩
  · exact Or.inr (Or.inl ⟨h1, (hm p).2.1 h2⟩)
  · exact Or.inr (Or.inr (Or.inl ⟨h1, (hm p).2.2.1 h2⟩))
  · exact Or.inr (Or.inr (Or.inr ⟨h1, (hm p).2.2.2 h2⟩))

theorem Reach_mono {g g' : Grid} (hm : wallsMono g g') {p q : Nat × Nat}
    (h : Reach g p q) : Reach g' p q :=
  Relation.ReflTransGen.mono (fun _ _ ha => adjOpen_mono hm ha) h

theorem carveInv_update_ew {width height : Nat} {st : CarveState}
    (hInv : CarveInv width height st)
    {npos : Nat × Nat} {g' : Grid} (rng' : PRNGState) {a : Nat × Nat}
    (hin : inBounds width height npos)
    (hviz : (st.grid npos).visited = false)
    (hpair : (a = st.current ∧ (a.1 + 1, a.2) = npos) ∨
      (a = npos ∧ (a.1 + 1, a.2) = st.current))
    (hx : ∀ q, (g' q).x = (st.grid q).x)
    (hz : ∀ q, (g' q).z = (st.grid q).z)
    (hvis : ∀ q, (g' q).visited = if q = npos then true else (st.grid q).visited)
    (heast : ∀ q, (g' q).walls.east = if q = a then false else (st.grid q).walls.east)
    (hwest : ∀ q, (g' q).walls.west =
      if q = (a.1 + 1, a.2) then false else (st.grid q).walls.west)
    (hnorth : ∀ q, (g' q).walls.north = (st.grid q).walls.north)
    (hsouth : ∀ q, (g' q).walls.south = (st.grid q).walls.south) :
    CarveInv width height ⟨g', rng', npos, st.current :: st.stack⟩ ∧
      unvisitedCount width height g' + 1 = unvisitedCount width height st.grid := by
  obtain ⟨hnw, hnh⟩ := hin
  have haIn : inBounds width height a := by
    rcases hpair with ⟨h1, _⟩ | ⟨h1, _⟩
    · exact h1 ▸ hInv.curIn
    · exact h1 ▸ ⟨hnw, hnh⟩
  obtain ⟨ha1, ha2⟩ := haIn
  have hbIn : inBounds width height (a.1 + 1, a.2) := by
    rcases hpair with ⟨_, h2⟩ | ⟨_, h2⟩
    · exact h2 ▸ ⟨hnw, hnh⟩
    · exact h2 ▸ hInv.curIn
  obtain ⟨hb1, hb2⟩ := hbIn
  have haEast : (st.grid a).walls.east = true := by
    rcases hpair with ⟨h1, h2⟩ | ⟨h1, h2⟩
    · have hw := hInv.unvisWalls npos hviz
      have hs := hInv.sym.1 a.1 a.2
      rw [h2, hw] at hs
      exact hs
    · have hw := hInv.unvisWalls npos hviz
      rw [h1, hw]
      rfl
  refine ⟨⟨?_, ?_, ?_, ?_, ?_, ?_, ?_, ?_, ?_, ?_, ?_, ?_, ?_⟩, ?_⟩
  · intro p
    exact ⟨by rw [hx]; exact (hInv.coords p).1, by rw [hz]; exact (hInv.coords p).2⟩
  · show (g' (0, 0)).visited = true
    rw [hvis]
    split_ifs with h
    · rfl
    · exact hInv.zeroVis
  · exact ⟨hnw, hnh⟩
  · show (g' npos).visited = true
    rw [hvis, if_pos rfl]
  · intro p hp
    rcases List.mem_cons.mp hp with h | h
    · exact h ▸ hInv.curIn
    · exact hInv.stackIn p h
  · intro p hp
    show (g' p).visited = true
    rw [hvis]
    split_ifs with hq
    · rfl
    · rcases List.mem_cons.mp hp with h | h
      · exact h ▸ hInv.curVis
      · exact hInv.stackVis p h
  · intro p hpv
    rw [hvis] at hpv
    by_cases hpn : p = npos
    · rw [if_pos hpn] at hpv
      exact absurd hpv (by simp)
    · rw [if_neg hpn] at hpv
      have hpa : p ≠ a := by
        rcases hpair with ⟨h1, _⟩ | ⟨h1, _⟩
        · intro hh
          have hcv := hInv.curVis
          rw [← h1, ← hh, hpv] at hcv
          exact absurd hcv (by simp)
        · rw [h1]; exact hpn
      have hpb : p ≠ (a.1 + 1, a.2) := by
        rcases hpair with ⟨_, h2⟩ | ⟨_, h2⟩
        · rw [h2]; exact hpn
        · intro hh
          have hcv := hInv.curVis
          rw [← h2, ← hh, hpv] at hcv
          exact absurd hcv (by simp)
      have hwalls : (g' p).walls = (st.grid p).walls := by
        have h1 := heast p
        rw [if_neg hpa] at h1
        have h2 := hwest p
        rw [if_neg hpb] at h2
        have h3 := hnorth p
        have h4 := hsouth p
        calc (g' p).walls
            = ⟨(g' p).walls.north, (g' p).walls.south,
                (g' p).walls.east, (g' p).walls.west⟩ := rfl
          _ = ⟨(st.grid p).walls.north, (st.grid p).walls.south,
                (st.grid p).walls.east, (st.grid p).walls.west⟩ := by rw [h1, h2, h3, h4]
          _ = (st.grid p).walls := rfl
      rw [hwalls]
      exact hInv.unvisWalls p hpv
  · constructor
    · intro x z
      rw [heast, hwest]
      by_cases hc : (x, z) = a
      · rw [if_pos hc, if_pos (by rw [Prod.ext_iff] at hc ⊢; simp at hc ⊢; omega)]
      · rw [if_neg hc, if_neg (by
          intro hcc
          apply hc
          rw [Prod.ext_iff] at hcc ⊢
          simp at hcc ⊢
          omega)]
        exact hInv.sym.1 x z
    · intro x z
      rw [hsouth, hnorth]
      exact hInv.sym.2 x z
  · intro x z he'
    rw [heast] at he'
    by_cases hc : (x, z) = a
    · rw [Prod.ext_iff] at hc
      simp at hc
      omega
    · rw [if_neg hc] at he'
      exact hInv.eastBound x z he'
  · intro x z hs'
    rw [hsouth] at hs'
    exact hInv.southBound x z hs'
  · show (edgeFinset width height g').card + 1 = (visitedFinset width height g').card
    have hedge : (edgeFinset width height g').card =
        (edgeFinset width height st.grid).card + 1 := by
      unfold edgeFinset
      refine filter_flip_card (e := ((a, true) : (Nat × Nat) × Bool)) ?_ ?_ ?_ ?_
      · rw [Finset.mem_product]
        refine ⟨?_, Finset.mem_univ _⟩
        rw [cellFinset, Finset.mem_product]
        exact ⟨Finset.mem_range.mpr ha1, Finset.mem_range.mpr ha2⟩
      · rintro (⟨het, hc1, hc2, hef⟩ | ⟨hft, _, _, _⟩)
        · rw [haEast] at hef
          exact absurd hef (by simp)
        · exact absurd hft (by simp)
      · left
        exact ⟨rfl, hb1, ha2, by rw [heast, if_pos rfl]⟩
      · intro e hne
        unfold edgeOpen
        constructor
        · rintro (⟨het, hc1, hc2, hef⟩ | ⟨hft, hc1, hc2, hsf⟩)
          · left
            refine ⟨het, hc1, hc2, ?_⟩
            rw [heast]
            split_ifs with hea
            · rfl
            · exact hef
          · right
            exact ⟨hft, hc1, hc2, by rw [hsouth]; exact hsf⟩
        · rintro (⟨het, hc1, hc2, hef⟩ | ⟨hft, hc1, hc2, hsf⟩)
          · left
            refine ⟨het, hc1, hc2, ?_⟩
            rw [heast] at hef
            split_ifs at hef with hea
            · exfalso
              apply hne
              rw [Prod.ext_iff]
              exact ⟨hea, het⟩
            · exact hef
          · right
            refine ⟨hft, hc1, hc2, ?_⟩
            rw [hsouth] at hsf
            exact hsf
    have hvisited : (visitedFinset width height g').card =
        (visitedFinset width height st.grid).card + 1 := by
      unfold visitedFinset
      refine filter_flip_card (e := npos) ?_ ?_ ?_ ?_
      · rw [cellFinset, Finset.mem_product]
        exact ⟨Finset.mem_range.mpr hnw, Finset.mem_range.mpr hnh⟩
      · simp [hviz]
      · rw [hvis, if_pos rfl]
      · intro q hq
        rw [hvis, if_neg hq]
    have hc := hInv.count
    omega
  · have hmono : wallsMono st.grid g' := by
      intro q
      refine ⟨?_, ?_, ?_, ?_⟩
      · intro hf
        rw [heast]
        split_ifs with h
        · rfl
        · exact hf
      · intro hf
        rw [hwest]
        split_ifs with h
        · rfl
        · exact hf
      · intro hf
        rw [hsouth]
        exact hf
      · intro hf
        rw [hnorth]
        exact hf
    intro p hpIn hpv
    rw [hvis] at hpv
    by_cases hpn : p = npos
    · subst hpn
      have hreach_cur : Reach g' (0, 0) st.current :=
        Reach_mono hmono (hInv.reach st.current hInv.curIn hInv.curVis)
      refine Relation.ReflTransGen.tail hreach_cur ?_
      rcases hpair with ⟨h1, h2⟩ | ⟨h1, h2⟩
      · left
        refine ⟨by rw [← h2, h1], ?_⟩
        rw [heast, if_pos h1.symm]
      · right
        left
        refine ⟨by rw [← h2, h1], ?_⟩
        rw [hwest, if_pos h2.symm]
    · rw [if_neg hpn] at hpv
      exact Reach_mono hmono (hInv.reach p hpIn hpv)
  · intro p hpIn hpv hpstack hpcur
    rw [hvis, if_neg hpcur] at hpv
    have hp_not_stack : p ∉ st.stack := fun h => hpstack (List.mem_cons_of_mem _ h)
    have hp_ne_cur : p ≠ st.current := fun h => hpstack (h ▸ List.mem_cons_self _ _)
    intro q hadj hqIn
    show (g' q).visited = true
    rw [hvis]
    split_ifs with hq
    · rfl
    · exact hInv.finished p hpIn hpv hp_not_stack hp_ne_cur q hadj hqIn
  · unfold unvisitedCount
    refine filter_flip_erase_card (e := npos) ?_ ?_ ?_ ?_
    · rw [cellFinset, Finset.mem_product]
      exact ⟨Finset.mem_range.mpr hnw, Finset.mem_range.mpr hnh⟩
    · exact hviz
    · rw [hvis, if_pos rfl]
      simp
    · intro q hq
      rw [hvis, if_neg hq]

theorem carveInv_update_ns {width height : Nat} {st : CarveState}
    (hInv : CarveInv width height st)
    {npos : Nat × Nat} {g' : Grid} (rng' : PRNGState) {a : Nat × Nat}
    (hin : inBounds width height npos)
    (hviz : (st.grid npos).visited = false)
    (hpair : (a = st.current ∧ (a.1, a.2 + 1) = npos) ∨
      (a = npos ∧ (a.1, a.2 + 1) = st.current))
    (hx : ∀ q, (g' q).x = (st.grid q).x)
    (hz : ∀ q, (g' q).z = (st.grid q).z)
    (hvis : ∀ q, (g' q).visited = if q = npos then true else (st.grid q).visited)
    (hsouth : ∀ q, (g' q).walls.south = if q = a then false else (st.grid q).walls.south)
    (hnorth : ∀ q, (g' q).walls.north =
      if q = (a.1, a.2 + 1) then false else (st.grid q).walls.north)
    (heast : ∀ q, (g' q).walls.east = (st.grid q).walls.east)
    (hwest : ∀ q, (g' q).walls.west = (st.grid q).walls.west) :
    CarveInv width height ⟨g', rng', npos, st.current :: st.stack⟩ ∧
      unvisitedCount width height g' + 1 = unvisitedCount width height st.grid := by
  obtain ⟨hnw, hnh⟩ := hin
  have haIn : inBounds width height a := by
    rcases hpair with ⟨h1, _⟩ | ⟨h1, _⟩
    · exact h1 ▸ hInv.curIn
    · exact h1 ▸ ⟨hnw, hnh⟩
  obtain ⟨ha1, ha2⟩ := haIn
  have hbIn : inBounds width height (a.1, a.2 + 1) := by
    rcases hpair with ⟨_, h2⟩ | ⟨_, h2⟩
    · exact h2 ▸ ⟨hnw, hnh⟩
    · exact h2 ▸ hInv.curIn
  obtain ⟨hb1, hb2⟩ := hbIn
  have haSouth : (st.grid a).walls.south = true := by
    rcases hpair with ⟨h1, h2⟩ | ⟨h1, h2⟩
    · have hw := hInv.unvisWalls npos hviz
      have hs := hInv.sym.2 a.1 a.2
      rw [h2, hw] at hs
      exact hs
    · have hw := hInv.unvisWalls npos hviz
      rw [h1, hw]
      rfl
  refine ⟨⟨?_, ?_, ?_, ?_, ?_, ?_, ?_, ?_, ?_, ?_, ?_, ?_, ?_⟩, ?_⟩
  · intro p
    exact ⟨by rw [hx]; exact (hInv.coords p).1, by rw [hz]; exact (hInv.coords p).2⟩
  · show (g' (0, 0)).visited = true
    rw [hvis]
    split_ifs with h
    · rfl
    · exact hInv.zeroVis
  · exact ⟨hnw, hnh⟩
  · show (g' npos).visited = true
    rw [hvis, if_pos rfl]
  · intro p hp
    rcases List.mem_cons.mp hp with h | h
    · exact h ▸ hInv.curIn
    · exact hInv.stackIn p h
  · intro p hp
    show (g' p).visited = true
    rw [hvis]
    split_ifs with hq
    · rfl
    · rcases List.mem_cons.mp hp with h | h
      · exact h ▸ hInv.curVis
      · exact hInv.stackVis p h
  · intro p hpv
    rw [hvis] at hpv
    by_cases hpn : p = npos
    · rw [if_pos hpn] at hpv
      exact absurd hpv (by simp)
    · rw [if_neg hpn] at hpv
      have hpa : p ≠ a := by
        rcases hpair with ⟨h1, _⟩ | ⟨h1, _⟩
        · intro hh
          have hcv := hInv.curVis
          rw [← h1, ← hh, hpv] at hcv
          exact absurd hcv (by simp)
        · rw [h1]; exact hpn
      have hpb : p ≠ (a.1, a.2 + 1) := by
        rcases hpair with ⟨_, h2⟩ | ⟨_, h2⟩
        · rw [h2]; exact hpn
        · intro hh
          have hcv := hInv.curVis
          rw [← h2, ← hh, hpv] at hcv
          exact absurd hcv (by simp)
      have hwalls : (g' p).walls = (st.grid p).walls := by
        have h1 := hsouth p
        rw [if_neg hpa] at h1
        have h2 := hnorth p
        rw [if_neg hpb] at h2
        have h3 := heast p
        have h4 := hwest p
        calc (g' p).walls
            = ⟨(g' p).walls.north, (g' p).walls.south,
                (g' p).walls.east, (g' p).walls.west⟩ := rfl
          _ = ⟨(st.grid p).walls.north, (st.grid p).walls.south,
                (st.grid p).walls.east, (st.grid p).walls.west⟩ := by rw [h1, h2, h3, h4]
          _ = (st.grid p).walls := rfl
      rw [hwalls]
      exact hInv.unvisWalls p hpv
  · constructor
    · intro x z
      rw [heast, hwest]
      exact hInv.sym.1 x z
    · intro x z
      rw [hsouth, hnorth]
      by_cases hc : (x, z) = a
      · rw [if_pos hc, if_pos (by rw [Prod.ext_iff] at hc ⊢; simp at hc ⊢; omega)]
      · rw [if_neg hc, if_neg (by
          intro hcc
          apply hc
          rw [Prod.ext_iff] at hcc ⊢
          simp at hcc ⊢
          omega)]
        exact hInv.sym.2 x z
  · intro x z he'
    rw [heast] at he'
    exact hInv.eastBound x z he'
  · intro x z hs'
    rw [hsouth] at hs'
    by_cases hc : (x, z) = a
    · rw [Prod.ext_iff] at hc
      simp at hc
      omega
    · rw [if_neg hc] at hs'
      exact hInv.southBound x z hs'
  · show (edgeFinset width height g').card + 1 = (visitedFinset width height g').card
    have hedge : (edgeFinset width height g').card =
        (edgeFinset width height st.grid).card + 1 := by
      unfold edgeFinset
      refine filter_flip_card (e := ((a, false) : (Nat × Nat) × Bool)) ?_ ?_ ?_ ?_
      · rw [Finset.mem_product]
        refine ⟨?_, Finset.mem_univ _⟩
        rw [cellFinset, Finset.mem_product]
        exact ⟨Finset.mem_range.mpr ha1, Finset.mem_range.mpr ha2⟩
      · rintro (⟨het, _, _, _⟩ | ⟨hft, hc1, hc2, hsf⟩)
        · exact absurd het (by simp)
        · rw [haSouth] at hsf
          exact absurd hsf (by simp)
      · right
        exact ⟨rfl, ha1, hb2, by rw [hsouth, if_pos rfl]⟩
      · intro e hne
        unfold edgeOpen
        constructor
        · rintro (⟨het, hc1, hc2, hef⟩ | ⟨hft, hc1, hc2, hsf⟩)
          · left
            exact ⟨het, hc1, hc2, by rw [heast]; exact hef⟩
          · right
            refine ⟨hft, hc1, hc2, ?_⟩
            rw [hsouth]
            split_ifs with hsa
            · rfl
            · exact hsf
        · rintro (⟨het, hc1, hc2, hef⟩ | ⟨hft, hc1, hc2, hsf⟩)
          · left
            refine ⟨het, hc1, hc2, ?_⟩
            rw [heast] at hef
            exact hef
          · right
            refine ⟨hft, hc1, hc2, ?_⟩
            rw [hsouth] at hsf
            split_ifs at hsf with hsa
            · exfalso
              apply hne
              rw [Prod.ext_iff]
              exact ⟨hsa, hft⟩
            · exact hsf
    have hvisited : (visitedFinset width height g').card =
        (visitedFinset width height st.grid).card + 1 := by
      unfold visitedFinset
      refine filter_flip_card (e := npos) ?_ ?_ ?_ ?_
      · rw [cellFinset, Finset.mem_product]
        exact ⟨Finset.mem_range.mpr hnw, Finset.mem_range.mpr hnh⟩
      · simp [hviz]
      · rw [hvis, if_pos rfl]
      · intro q hq
        rw [hvis, if_neg hq]
    have hc := hInv.count
    omega
  · have hmono : wallsMono st.grid g' := by
      intro q
      refine ⟨?_, ?_, ?_, ?_⟩
      · intro hf
        rw [heast]
        exact hf
      · intro hf
        rw [hwest]
        exact hf
      · intro hf
        rw [hsouth]
        split_ifs with h
        · rfl
        · exact hf
      · intro hf
        rw [hnorth]
        split_ifs with h
        · rfl
        · exact hf
    intro p hpIn hpv
    rw [hvis] at hpv
    by_cases hpn : p = npos
    · subst hpn
      have hreach_cur : Reach g' (0, 0) st.current :=
        Reach_mono hmono (hInv.reach st.current hInv.curIn hInv.curVis)
      refine Relation.ReflTransGen.tail hreach_cur ?_
      rcases hpair with ⟨h1, h2⟩ | ⟨h1, h2⟩
      · right
        right
        left
        refine ⟨by rw [← h2, h1], ?_⟩
        rw [hsouth, if_pos h1.symm]
      · right
        right
        right
        refine ⟨by rw [← h2, h1], ?_⟩
        rw [hnorth, if_pos h2.symm]
    · rw [if_neg hpn] at hpv
      exact Reach_mono hmono (hInv.reach p hpIn hpv)
  · intro p hpIn hpv hpstack hpcur
    rw [hvis, if_neg hpcur] at hpv
    have hp_not_stack : p ∉ st.stack := fun h => hpstack (List.mem_cons_of_mem _ h)
    have hp_ne_cur : p ≠ st.current := fun h => hpstack (h ▸ List.mem_cons_self _ _)
    intro q hadj hqIn
    show (g' q).visited = true
    rw [hvis]
    split_ifs with hq
    · rfl
    · exact hInv.finished p hpIn hpv hp_not_stack hp_ne_cur q hadj hqIn
  · unfold unvisitedCount
    refine filter_flip_erase_card (e := npos) ?_ ?_ ?_ ?_
    · rw [cellFinset, Finset.mem_product]
      exact ⟨Finset.mem_range.mpr hnw, Finset.mem_range.mpr hnh⟩
    · exact hviz
    · rw [hvis, if_pos rfl]
      simp
    · intro q hq
      rw [hvis, if_neg hq]

theorem carveStep_next_facts {width height : Nat} {st st' : CarveState}
    (hInv : CarveInv width height st)
    (hstep : carveStep width height st = .next st') :
    CarveInv width height st' ∧
      carveMeasure width height st' < carveMeasure width height st := by
  unfold carveStep at hstep
  split at hstep
  · rename_i hnil
    split at hstep
    · rename_i c rest hstack
      injection hstep with h
      rw [← h]
      constructor
      · refine ⟨hInv.coords, hInv.zeroVis, ?_, ?_, ?_, ?_, hInv.unvisWalls, hInv.sym,
          hInv.eastBound, hInv.southBound, hInv.count, hInv.reach, ?_⟩
        · exact hInv.stackIn c (by rw [hstack]; exact List.mem_cons_self _ _)
        · exact hInv.stackVis c (by rw [hstack]; exact List.mem_cons_self _ _)
        · intro p hp
          exact hInv.stackIn p (by rw [hstack]; exact List.mem_cons_of_mem _ hp)
        · intro p hp
          exact hInv.stackVis p (by rw [hstack]; exact List.mem_cons_of_mem _ hp)
        · intro p hpIn hpv hprest hpc
          by_cases hpcur : p = st.current
          · subst hpcur
            intro q hadj hqIn
            exact getNeighbors_nil_all_visited hInv.coords hnil hadj hqIn
          · have hpstack : p ∉ st.stack := by
              rw [hstack]
              intro hmem
              rcases List.mem_cons.mp hmem with hh | hh
              · exact hpc hh
              · exact hprest hh
            exact hInv.finished p hpIn hpv hpstack hpcur
      · show carveMeasure width height ⟨st.grid, st.rng, c, rest⟩ <
          carveMeasure width height st
        unfold carveMeasure
        rw [hstack]
        simp
    · exact absurd hstep (by simp)
  · rename_i n ns hne
    injection hstep with h
    rw [← h]
    set rN := (n :: ns).get
      ⟨randIndex (st.rng.next).1 (n :: ns).length,
        randIndex_lt_length (next_fst_lt st.rng) (List.cons_ne_nil n ns)⟩ with hrN_def
    have hrN_mem : rN ∈ getNeighbors width height st.grid (st.grid st.current) := by
      rw [hne, hrN_def]
      exact List.get_mem _ _ _
    obtain ⟨hviz, hinN, hcellN, hadj⟩ :=
      mem_getNeighbors_facts hInv.coords hInv.curIn hrN_mem
    have hne_cur : st.current ≠ (rN.x, rN.z) := adjacentCoords_ne hadj
    have hviz2 : (st.grid (rN.x, rN.z)).visited = false := by
      rw [hcellN]
      exact hviz
    rcases hadj with hcase | hcase | hcase | hcase
    · -- chosen neighbor lies east of the current cell
      have hrx : rN.x = st.current.1 + 1 := by
        rw [Prod.ext_iff] at hcase
        exact hcase.1
      have hnpos_eq : ((st.current.1 + 1 : Nat), st.current.2) = (rN.x, rN.z) := by
        rw [Prod.ext_iff] at hcase ⊢
        exact ⟨hcase.1.symm, hcase.2.symm⟩
      have hc1 : ¬(((st.grid st.current).x : Int) - (rN.x : Int) = 1) := by
        rw [(hInv.coords st.current).1, hrx]
        push_cast
        omega
      have hc2 : ((st.grid st.current).x : Int) - (rN.x : Int) = -1 := by
        rw [(hInv.coords st.current).1, hrx]
        push_cast
        omega
      have hgrid : (removeWall st.grid (st.grid st.current) rN).setCell (rN.x, rN.z)
          { removeWall st.grid (st.grid st.current) rN (rN.x, rN.z) with visited := true } =
          (st.grid.setCell st.current
            { st.grid st.current with
                walls := { (st.grid st.current).walls with east := false } }).setCell
            (rN.x, rN.z)
            { rN with walls := { rN.walls with west := false }, visited := true } := by
        have hrm : removeWall st.grid (st.grid st.current) rN =
            (st.grid.setCell st.current
              { st.grid st.current with
                  walls := { (st.grid st.current).walls with east := false } }).setCell
              (rN.x, rN.z) { rN with walls := { rN.walls with west := false } } := by
          simp only [removeWall]
          rw [if_neg hc1, if_pos hc2, (hInv.coords st.current).1, (hInv.coords st.current).2,
            Prod.mk.eta]
        rw [hrm, Grid.setCell_same, Grid.setCell_setCell_same]
      rw [hgrid]
      set D := (st.grid.setCell st.current
        { st.grid st.current with
            walls := { (st.grid st.current).walls with east := false } }).setCell
        (rN.x, rN.z) { rN with walls := { rN.walls with west := false }, visited := true }
        with hD
      have hpt : ∀ q, D q =
          if q = (rN.x, rN.z) then
            { rN with walls := { rN.walls with west := false }, visited := true }
          else if q = st.current then
            { st.grid st.current with
                walls := { (st.grid st.current).walls with east := false } }
          else st.grid q := by
        intro q
        rw [hD]
        exact double_set_pointwise _ _ _ hne_cur q
      have hxq : ∀ q, (D q).x = (st.grid q).x := by
        intro q
        rw [hpt q]
        by_cases h1 : q = (rN.x, rN.z)
        · rw [if_pos h1, h1, hcellN]
        · rw [if_neg h1]
          by_cases h2 : q = st.current
          · rw [if_pos h2, h2]
          · rw [if_neg h2]
      have hzq : ∀ q, (D q).z = (st.grid q).z := by
        intro q
        rw [hpt q]
        by_cases h1 : q = (rN.x, rN.z)
        · rw [if_pos h1, h1, hcellN]
        · rw [if_neg h1]
          by_cases h2 : q = st.current
          · rw [if_pos h2, h2]
          · rw [if_neg h2]
      have hVis : ∀ q, (D q).visited =
          if q = (rN.x, rN.z) then true else (st.grid q).visited := by
        intro q
        rw [hpt q]
        by_cases h1 : q = (rN.x, rN.z)
        · rw [if_pos h1, if_pos h1]
        · rw [if_neg h1, if_neg h1]
          by_cases h2 : q = st.current
          · rw [if_pos h2, h2]
          · rw [if_neg h2]
      have hE : ∀ q, (D q).walls.east =
          if q = st.current then false else (st.grid q).walls.east := by
        intro q
        rw [hpt q]
        by_cases h1 : q = (rN.x, rN.z)
        · rw [if_pos h1, if_neg (fun hc : q = st.current => hne_cur (hc ▸ h1)), h1, hcellN]
        · rw [if_neg h1]
          by_cases h2 : q = st.current
          · rw [if_pos h2, if_pos h2]
          · rw [if_neg h2, if_neg h2]
      have hW : ∀ q, (D q).walls.west =
          if q = ((st.current.1 + 1 : Nat), st.current.2) then false
          else (st.grid q).walls.west := by
        intro q
        rw [hpt q, hnpos_eq]
        by_cases h1 : q = (rN.x, rN.z)
        · rw [if_pos h1, if_pos h1]
        · rw [if_neg h1, if_neg h1]
          by_cases h2 : q = st.current
          · rw [if_pos h2, h2]
          · rw [if_neg h2]
      have hN : ∀ q, (D q).walls.north = (st.grid q).walls.north := by
        intro q
        rw [hpt q]
        by_cases h1 : q = (rN.x, rN.z)
        · rw [if_pos h1, h1, hcellN]
        · rw [if_neg h1]
          by_cases h2 : q = st.current
          · rw [if_pos h2, h2]
          · rw [if_neg h2]
      have hS : ∀ q, (D q).walls.south = (st.grid q).walls.south := by
        intro q
        rw [hpt q]
        by_cases h1 : q = (rN.x, rN.z)
        · rw [if_pos h1, h1, hcellN]
        · rw [if_neg h1]
          by_cases h2 : q = st.current
          · rw [if_pos h2, h2]
          · rw [if_neg h2]
      obtain ⟨hInv', hcnt⟩ := carveInv_update_ew hInv (st.rng.next).2 hinN hviz2
        (Or.inl ⟨rfl, hnpos_eq⟩) hxq hzq hVis hE hW hN hS
      refine ⟨hInv', ?_⟩
      unfold carveMeasure
      simp only [List.length_cons]
      omega
    · -- chosen neighbor lies west of the current cell
      have hrx : st.current.1 = rN.x + 1 := by
        rw [Prod.ext_iff] at hcase
        exact hcase.1
      have hcur_eq : ((rN.x + 1 : Nat), rN.z) = st.current := by
        rw [Prod.ext_iff] at hcase ⊢
        exact ⟨hcase.1.symm, hcase.2.symm⟩
      have hc1 : ((st.grid st.current).x : Int) - (rN.x : Int) = 1 := by
        rw [(hInv.coords st.current).1, hrx]
        push_cast
        omega
      have hgrid : (removeWall st.grid (st.grid st.current) rN).setCell (rN.x, rN.z)
          { removeWall st.grid (st.grid st.current) rN (rN.x, rN.z) with visited := true } =
          (st.grid.setCell st.current
            { st.grid st.current with
                walls := { (st.grid st.current).walls with west := false } }).setCell
            (rN.x, rN.z)
            { rN with walls := { rN.walls with east := false }, visited := true } := by
        have hrm : removeWall st.grid (st.grid st.current) rN =
            (st.grid.setCell st.current
              { st.grid st.current with
                  walls := { (st.grid st.current).walls with west := false } }).setCell
              (rN.x, rN.z) { rN with walls := { rN.walls with east := false } } := by
          simp only [removeWall]
          rw [if_pos hc1, (hInv.coords st.current).1, (hInv.coords st.current).2,
            Prod.mk.eta]
        rw [hrm, Grid.setCell_same, Grid.setCell_setCell_same]
      rw [hgrid]
      set D := (st.grid.setCell st.current
        { st.grid st.current with
            walls := { (st.grid st.current).walls with west := false } }).setCell
        (rN.x, rN.z) { rN with walls := { rN.walls with east := false }, visited := true }
        with hD
      have hpt : ∀ q, D q =
          if q = (rN.x, rN.z) then
            { rN with walls := { rN.walls with east := false }, visited := true }
          else if q = st.current then
            { st.grid st.current with
                walls := { (st.grid st.current).walls with west := false } }
          else st.grid q := by
        intro q
        rw [hD]
        exact double_set_pointwise _ _ _ hne_cur q
      have hxq : ∀ q, (D q).x = (st.grid q).x := by
        intro q
        rw [hpt q]
        by_cases h1 : q = (rN.x, rN.z)
        · rw [if_pos h1, h1, hcellN]
        · rw [if_neg h1]
          by_cases h2 : q = st.current
          · rw [if_pos h2, h2]
          · rw [if_neg h2]
      have hzq : ∀ q, (D q).z = (st.grid q).z := by
        intro q
        rw [hpt q]
        by_cases h1 : q = (rN.x, rN.z)
        · rw [if_pos h1, h1, hcellN]
        · rw [if_neg h1]
          by_cases h2 : q = st.current
          · rw [if_pos h2, h2]
          · rw [if_neg h2]
      have hVis : ∀ q, (D q).visited =
          if q = (rN.x, rN.z) then true else (st.grid q).visited := by
        intro q
        rw [hpt q]
        by_cases h1 : q = (rN.x, rN.z)
        · rw [if_pos h1, if_pos h1]
        · rw [if_neg h1, if_neg h1]
          by_cases h2 : q = st.current
          · rw [if_pos h2, h2]
          · rw [if_neg h2]
      have hE : ∀ q, (D q).walls.east =
          if q = (rN.x, rN.z) then false else (st.grid q).walls.east := by
        intro q
        rw [hpt q]
        by_cases h1 : q = (rN.x, rN.z)
        · rw [if_pos h1, if_pos h1]
        · rw [if_neg h1, if_neg h1]
          by_cases h2 : q = st.current
          · rw [if_pos h2, h2]
          · rw [if_neg h2]
      have hW : ∀ q, (D q).walls.west =
          if q = ((rN.x + 1 : Nat), rN.z) then false else (st.grid q).walls.west := by
        intro q
        rw [hpt q, hcur_eq]
        by_cases h1 : q = (rN.x, rN.z)
        · rw [if_pos h1, if_neg (fun hc : q = st.current => hne_cur (hc ▸ h1)), h1, hcellN]
        · rw [if_neg h1]
          by_cases h2 : q = st.current
          · rw [if_pos h2, if_pos h2]
          · rw [if_neg h2, if_neg h2]
      have hN : ∀ q, (D q).walls.north = (st.grid q).walls.north := by
        intro q
        rw [hpt q]
        by_cases h1 : q = (rN.x, rN.z)
        · rw [if_pos h1, h1, hcellN]
        · rw [if_neg h1]
          by_cases h2 : q = st.current
          · rw [if_pos h2, h2]
          · rw [if_neg h2]
      have hS : ∀ q, (D q).walls.south = (st.grid q).walls.south := by
        intro q
        rw [hpt q]
        by_cases h1 : q = (rN.x, rN.z)
        · rw [if_pos h1, h1, hcellN]
        · rw [if_neg h1]
          by_cases h2 : q = st.current
          · rw [if_pos h2, h2]
          · rw [if_neg h2]
      obtain ⟨hInv', hcnt⟩ := carveInv_update_ew hInv (st.rng.next).2 hinN hviz2
        (Or.inr ⟨rfl, hcur_eq⟩) hxq hzq hVis hE hW hN hS
      refine ⟨hInv', ?_⟩
      unfold carveMeasure
      simp only [List.length_cons]
      omega
    · -- chosen neighbor lies south of the current cell (z + 1)
      have hrz : rN.z = st.current.2 + 1 := by
        rw [Prod.ext_iff] at hcase
        exact hcase.2
      have hrx : rN.x = st.current.1 := by
        rw [Prod.ext_iff] at hcase
        exact hcase.1
      have hnpos_eq : (st.current.1, (st.current.2 + 1 : Nat)) = (rN.x, rN.z) := by
        rw [Prod.ext_iff] at hcase ⊢
        exact ⟨hcase.1.symm, hcase.2.symm⟩
      have hc1 : ¬(((st.grid st.current).x : Int) - (rN.x : Int) = 1) := by
        rw [(hInv.coords st.current).1, hrx]
        push_cast
        omega
      have hc2 : ¬(((st.grid st.current).x : Int) - (rN.x : Int) = -1) := by
        rw [(hInv.coords st.current).1, hrx]
        push_cast
        omega
      have hc3 : ¬(((st.grid st.current).z : Int) - (rN.z : Int) = 1) := by
        rw [(hInv.coords st.current).2, hrz]
        push_cast
        omega
      have hc4 : ((st.grid st.current).z : Int) - (rN.z : Int) = -1 := by
        rw [(hInv.coords st.current).2, hrz]
        push_cast
        omega
      have hgrid : (removeWall st.grid (st.grid st.current) rN).setCell (rN.x, rN.z)
          { removeWall st.grid (st.grid st.current) rN (rN.x, rN.z) with visited := true } =
          (st.grid.setCell st.current
            { st.grid st.current with
                walls := { (st.grid st.current).walls with south := false } }).setCell
            (rN.x, rN.z)
            { rN with walls := { rN.walls with north := false }, visited := true } := by
        have hrm : removeWall st.grid (st.grid st.current) rN =
            (st.grid.setCell st.current
              { st.grid st.current with
                  walls := { (st.grid st.current).walls with south := false } }).setCell
              (rN.x, rN.z) { rN with walls := { rN.walls with north := false } } := by
          simp only [removeWall]
          rw [if_neg hc1, if_neg hc2, if_neg hc3, if_pos hc4, (hInv.coords st.current).1,
            (hInv.coords st.current).2, Prod.mk.eta]
        rw [hrm, Grid.setCell_same, Grid.setCell_setCell_same]
      rw [hgrid]
      set D := (st.grid.setCell st.current
        { st.grid st.current with
            walls := { (st.grid st.current).walls with south := false } }).setCell
        (rN.x, rN.z) { rN with walls := { rN.walls with north := false }, visited := true }
        with hD
      have hpt : ∀ q, D q =
          if q = (rN.x, rN.z) then
            { rN with walls := { rN.walls with north := false }, visited := true }
          else if q = st.current then
            { st.grid st.current with
                walls := { (st.grid st.current).walls with south := false } }
          else st.grid q := by
        intro q
        rw [hD]
        exact double_set_pointwise _ _ _ hne_cur q
      have hxq : ∀ q, (D q).x = (st.grid q).x := by
        intro q
        rw [hpt q]
        by_cases h1 : q = (rN.x, rN.z)
        · rw [if_pos h1, h1, hcellN]
        · rw [if_neg h1]
          by_cases h2 : q = st.current
          · rw [if_pos h2, h2]
          · rw [if_neg h2]
      have hzq : ∀ q, (D q).z = (st.grid q).z := by
        intro q
        rw [hpt q]
        by_cases h1 : q = (rN.x, rN.z)
        · rw [if_pos h1, h1, hcellN]
        · rw [if_neg h1]
          by_cases h2 : q = st.current
          · rw [if_pos h2, h2]
          · rw [if_neg h2]
      have hVis : ∀ q, (D q).visited =
          if q = (rN.x, rN.z) then true else (st.grid q).visited := by
        intro q
        rw [hpt q]
        by_cases h1 : q = (rN.x, rN.z)
        · rw [if_pos h1, if_pos h1]
        · rw [if_neg h1, if_neg h1]
          by_cases h2 : q = st.current
          · rw [if_pos h2, h2]
          · rw [if_neg h2]
      have hS : ∀ q, (D q).walls.south =
          if q = st.current then false else (st.grid q).walls.south := by
        intro q
        rw [hpt q]
        by_cases h1 : q = (rN.x, rN.z)
        · rw [if_pos h1, if_neg (fun hc : q = st.current => hne_cur (hc ▸ h1)), h1, hcellN]
        · rw [if_neg h1]
          by_cases h2 : q = st.current
          · rw [if_pos h2, if_pos h2]
          · rw [if_neg h2, if_neg h2]
      have hN : ∀ q, (D q).walls.north =
          if q = (st.current.1, (st.current.2 + 1 : Nat)) then false
          else (st.grid q).walls.north := by
        intro q
        rw [hpt q, hnpos_eq]
        by_cases h1 : q = (rN.x, rN.z)
        · rw [if_pos h1, if_pos h1]
        · rw [if_neg h1, if_neg h1]
          by_cases h2 : q = st.current
          · rw [if_pos h2, h2]
          · rw [if_neg h2]
      have hE : ∀ q, (D q).walls.east = (st.grid q).walls.east := by
        intro q
        rw [hpt q]
        by_cases h1 : q = (rN.x, rN.z)
        · rw [if_pos h1, h1, hcellN]
        · rw [if_neg h1]
          by_cases h2 : q = st.current
          · rw [if_pos h2, h2]
          · rw [if_neg h2]
      have hW : ∀ q, (D q).walls.west = (st.grid q).walls.west := by
        intro q
        rw [hpt q]
        by_cases h1 : q = (rN.x, rN.z)
        · rw [if_pos h1, h1, hcellN]
        · rw [if_neg h1]
          by_cases h2 : q = st.current
          · rw [if_pos h2, h2]
          · rw [if_neg h2]
      obtain ⟨hInv', hcnt⟩ := carveInv_update_ns hInv (st.rng.next).2 hinN hviz2
        (Or.inl ⟨rfl, hnpos_eq⟩) hxq hzq hVis hS hN hE hW
      refine ⟨hInv', ?_⟩
      unfold carveMeasure
      simp only [List.length_cons]
      omega
    · -- chosen neighbor lies north of the current cell (z - 1)
      have hrz : st.current.2 = rN.z + 1 := by
        rw [Prod.ext_iff] at hcase
        exact hcase.2
      have hrx : st.current.1 = rN.x := by
        rw [Prod.ext_iff] at hcase
        exact hcase.1
      have hcur_eq : (rN.x, (rN.z + 1 : Nat)) = st.current := by
        rw [Prod.ext_iff] at hcase ⊢
        exact ⟨hcase.1.symm, hcase.2.symm⟩
      have hc1 : ¬(((st.grid st.current).x : Int) - (rN.x : Int) = 1) := by
        rw [(hInv.coords st.current).1, hrx]
        push_cast
        omega
      have hc2 : ¬(((st.grid st.current).x : Int) - (rN.x : Int) = -1) := by
        rw [(hInv.coords st.current).1, hrx]
        push_cast
        omega
      have hc3 : ((st.grid st.current).z : Int) - (rN.z : Int) = 1 := by
        rw [(hInv.coords st.current).2, hrz]
        push_cast
        omega
      have hgrid : (removeWall st.grid (st.grid st.current) rN).setCell (rN.x, rN.z)
          { removeWall st.grid (st.grid st.current) rN (rN.x, rN.z) with visited := true } =
          (st.grid.setCell st.current
            { st.grid st.current with
                walls := { (st.grid st.current).walls with north := false } }).setCell
            (rN.x, rN.z)
            { rN with walls := { rN.walls with south := false }, visited := true } := by
        have hrm : removeWall st.grid (st.grid st.current) rN =
            (st.grid.setCell st.current
              { st.grid st.current with
                  walls := { (st.grid st.current).walls with north := false } }).setCell
              (rN.x, rN.z) { rN with walls := { rN.walls with south := false } } := by
          simp only [removeWall]
          rw [if_neg hc1, if_neg hc2, if_pos hc3, (hInv.coords st.current).1,
            (hInv.coords st.current).2, Prod.mk.eta]
        rw [hrm, Grid.setCell_same, Grid.setCell_setCell_same]
      rw [hgrid]
      set D := (st.grid.setCell st.current
        { st.grid st.current with
            walls := { (st.grid st.current).walls with north := false } }).setCell
        (rN.x, rN.z) { rN with walls := { rN.walls with south := false }, visited := true }
        with hD
      have hpt : ∀ q, D q =
          if q = (rN.x, rN.z) then
            { rN with walls := { rN.walls with south := false }, visited := true }
          else if q = st.current then
            { st.grid st.current with
                walls := { (st.grid st.current).walls with north := false } }
          else st.grid q := by
        intro q
        rw [hD]
        exact double_set_pointwise _ _ _ hne_cur q
      have hxq : ∀ q, (D q).x = (st.grid q).x := by
        intro q
        rw [hpt q]
        by_cases h1 : q = (rN.x, rN.z)
        · rw [if_pos h1, h1, hcellN]
        · rw [if_neg h1]
          by_cases h2 : q = st.current
          · rw [if_pos h2, h2]
          · rw [if_neg h2]
      have hzq : ∀ q, (D q).z = (st.grid q).z := by
        intro q
        rw [hpt q]
        by_cases h1 : q = (rN.x, rN.z)
        · rw [if_pos h1, h1, hcellN]
        · rw [if_neg h1]
          by_cases h2 : q = st.current
          · rw [if_pos h2, h2]
          · rw [if_neg h2]
      have hVis : ∀ q, (D q).visited =
          if q = (rN.x, rN.z) then true else (st.grid q).visited := by
        intro q
        rw [hpt q]
        by_cases h1 : q = (rN.x, rN.z)
        · rw [if_pos h1, if_pos h1]
        · rw [if_neg h1, if_neg h1]
          by_cases h2 : q = st.current
          · rw [if_pos h2, h2]
          · rw [if_neg h2]
      have hS : ∀ q, (D q).walls.south =
          if q = (rN.x, rN.z) then false else (st.grid q).walls.south := by
        intro q
        rw [hpt q]
        by_cases h1 : q = (rN.x, rN.z)
        · rw [if_pos h1, if_pos h1]
        · rw [if_neg h1, if_neg h1]
          by_cases h2 : q = st.current
          · rw [if_pos h2, h2]
          · rw [if_neg h2]
      have hN : ∀ q, (D q).walls.north =
          if q = (rN.x, (rN.z + 1 : Nat)) then false else (st.grid q).walls.north := by
        intro q
        rw [hpt q, hcur_eq]
        by_cases h1 : q = (rN.x, rN.z)
        · rw [if_pos h1, if_neg (fun hc : q = st.current => hne_cur (hc ▸ h1)), h1, hcellN]
        · rw [if_neg h1]
          by_cases h2 : q = st.current
          · rw [if_pos h2, if_pos h2]
          · rw [if_neg h2, if_neg h2]
      have hE : ∀ q, (D q).walls.east = (st.grid q).walls.east := by
        intro q
        rw [hpt q]
        by_cases h1 : q = (rN.x, rN.z)
        · rw [if_pos h1, h1, hcellN]
        · rw [if_neg h1]
          by_cases h2 : q = st.current
          · rw [if_pos h2, h2]
          · rw [if_neg h2]
      have hW : ∀ q, (D q).walls.west = (st.grid q).walls.west := by
        intro q
        rw [hpt q]
        by_cases h1 : q = (rN.x, rN.z)
        · rw [if_pos h1, h1, hcellN]
        · rw [if_neg h1]
          by_cases h2 : q = st.current
          · rw [if_pos h2, h2]
          · rw [if_neg h2]
      obtain ⟨hInv', hcnt⟩ := carveInv_update_ns hInv (st.rng.next).2 hinN hviz2
        (Or.inr ⟨rfl, hcur_eq⟩) hxq hzq hVis hS hN hE hW
      refine ⟨hInv', ?_⟩
      unfold carveMeasure
      simp only [List.length_cons]
      omega

theorem carveStep_done_final {width height : Nat} {st : CarveState} {g : Grid}
    {rng : PRNGState} (hw : 1 ≤ width) (hh : 1 ≤ height)
    (hInv : CarveInv width height st)
    (hstep : carveStep width height st = .done g rng) :
    g = st.grid ∧ CarveFinal width height g := by
  unfold carveStep at hstep
  split at hstep
  · rename_i hnil
    split at hstep
    · exact absurd hstep (by simp)
    · rename_i hstack
      injection hstep with h1 h2
      subst h1
      refine ⟨rfl, ?_⟩
      have hclosed : ∀ p, inBounds width height p → (st.grid p).visited = true →
          ∀ q, adjacentCoords p q → inBounds width height q →
            (st.grid q).visited = true := by
        intro p hpIn hpv q hadj hqIn
        by_cases hpc : p = st.current
        · subst hpc
          exact getNeighbors_nil_all_visited hInv.coords hnil hadj hqIn
        · exact hInv.finished p hpIn hpv
            (by rw [hstack]; exact List.not_mem_nil p) hpc q hadj hqIn
      have hrow : ∀ x, x < width → (st.grid (x, 0)).visited = true := by
        intro x
        induction x with
        | zero => intro _; exact hInv.zeroVis
        | succ k ih =>
          intro hx
          exact hclosed (k, 0) ⟨by omega, by omega⟩ (ih (by omega)) (k + 1, 0)
            (Or.inl rfl) ⟨hx, by omega⟩
      have hcol : ∀ z x, x < width → z < height → (st.grid (x, z)).visited = true := by
        intro z
        induction z with
        | zero => intro x hxw _; exact hrow x hxw
        | succ k ih =>
          intro x hxw hzh
          exact hclosed (x, k) ⟨hxw, by omega⟩ (ih x hxw (by omega)) (x, k + 1)
            (Or.inr (Or.inr (Or.inl rfl))) ⟨hxw, hzh⟩
      have hall : ∀ p, inBounds width height p → (st.grid p).visited = true := by
        intro p hpIn
        obtain ⟨hx, hz⟩ := hpIn
        exact hcol p.2 p.1 hx hz
      refine ⟨hall, hInv.sym, ?_, ?_⟩
      · have hc := hInv.count
        have hv : visitedFinset width height st.grid = cellFinset width height := by
          unfold visitedFinset
          apply Finset.filter_true_of_mem
          intro p hp
          rw [cellFinset, Finset.mem_product] at hp
          exact hall p ⟨Finset.mem_range.mp hp.1, Finset.mem_range.mp hp.2⟩
        rw [hv] at hc
        have hcard : (cellFinset width height).card = width * height := by
          rw [cellFinset, Finset.card_product, Finset.card_range, Finset.card_range]
        rw [hcard] at hc
        exact hc
      · intro p hpIn
        exact hInv.reach p hpIn (hall p hpIn)
  · exact absurd hstep (by simp)

theorem carveLoop_some {width height : Nat} (hw : 1 ≤ width) (hh : 1 ≤ height) :
    ∀ (fuel : Nat) (st : CarveState), CarveInv width height st →
      carveMeasure width height st < fuel →
      ∃ g rng, carveLoop width height fuel st = some (g, rng) ∧
        CarveFinal width height g := by
  intro fuel
  induction fuel with
  | zero => intro st _ hm; omega
  | succ k ih =>
    intro st hInv hm
    cases hstep : carveStep width height st with
    | done g rng =>
      obtain ⟨hg, hfin⟩ := carveStep_done_final hw hh hInv hstep
      refine ⟨g, rng, ?_, hfin⟩
      rw [carveLoop, hstep]
    | next st' =>
      obtain ⟨hInv', hlt⟩ := carveStep_next_facts hInv hstep
      obtain ⟨g, rng, hloop, hfin⟩ := ih st' hInv' (by omega)
      refine ⟨g, rng, ?_, hfin⟩
      rw [carveLoop, hstep]
      exact hloop

theorem carveInv_init {width height : Nat} (hw : 1 ≤ width) (hh : 1 ≤ height)
    (seed : Nat) : CarveInv width height (initialCarveState seed) := by
  have hg : ∀ p, (initialCarveState seed).grid p =
      if p = (0, 0) then { x := 0, z := 0, walls := allWalls, visited := true }
      else { x := p.1, z := p.2, walls := allWalls, visited := false } := by
    intro p
    show (initializeGrid.setCell (0, 0) _) p = _
    unfold Grid.setCell initializeGrid
    split_ifs with h
    · rfl
    · rfl
  refine ⟨?_, ?_, ⟨hw, hh⟩, ?_, ?_, ?_, ?_, ?_, ?_, ?_, ?_, ?_, ?_⟩
  · intro p
    rw [hg]
    split_ifs with h
    · rw [h]
      exact ⟨rfl, rfl⟩
    · exact ⟨rfl, rfl⟩
  · rw [hg, if_pos rfl]
  · show ((initialCarveState seed).grid (0, 0)).visited = true
    rw [hg, if_pos rfl]
  · intro p hp
    exact absurd hp (List.not_mem_nil p)
  · intro p hp
    exact absurd hp (List.not_mem_nil p)
  · intro p hpv
    rw [hg] at hpv ⊢
    by_cases h : p = (0, 0)
    · rw [if_pos h] at hpv
      exact absurd hpv (by simp)
    · rw [if_neg h]
  · constructor <;> intro x z <;> rw [hg, hg] <;> split_ifs <;> rfl
  · intro x z he
    rw [hg] at he
    by_cases h : ((x, z) : Nat × Nat) = (0, 0)
    · rw [if_pos h] at he
      exact absurd he (by simp [allWalls])
    · rw [if_neg h] at he
      exact absurd he (by simp [allWalls])
  · intro x z hs
    rw [hg] at hs
    by_cases h : ((x, z) : Nat × Nat) = (0, 0)
    · rw [if_pos h] at hs
      exact absurd hs (by simp [allWalls])
    · rw [if_neg h] at hs
      exact absurd hs (by simp [allWalls])
  · have hedges : edgeFinset width height (initialCarveState seed).grid = ∅ := by
      unfold edgeFinset
      rw [Finset.filter_eq_empty_iff]
      intro e he hopen
      rcases hopen with ⟨_, _, _, hef⟩ | ⟨_, _, _, hsf⟩
      · rw [hg] at hef
        split_ifs at hef <;> simp [allWalls] at hef
      · rw [hg] at hsf
        split_ifs at hsf <;> simp [allWalls] at hsf
    have hvf : visitedFinset width height (initialCarveState seed).grid = {(0, 0)} := by
      unfold visitedFinset
      ext p
      simp only [Finset.mem_filter, Finset.mem_singleton]
      constructor
      · rintro ⟨hp, hv⟩
        rw [hg] at hv
        by_cases h : p = (0, 0)
        · exact h
        · rw [if_neg h] at hv
          exact absurd hv (by simp)
      · rintro rfl
        refine ⟨?_, by rw [hg, if_pos rfl]⟩
        rw [cellFinset, Finset.mem_product]
        exact ⟨Finset.mem_range.mpr hw, Finset.mem_range.mpr hh⟩
    rw [hedges, hvf]
    simp
  · intro p hpIn hpv
    rw [hg] at hpv
    by_cases h : p = (0, 0)
    · rw [h]
      exact Relation.ReflTransGen.refl
    · rw [if_neg h] at hpv
      exact absurd hpv (by simp)
  · intro p hpIn hpv hstk hpcur
    rw [hg] at hpv
    by_cases h : p = (0, 0)
    · exact absurd h hpcur
    · rw [if_neg h] at hpv
      exact absurd hpv (by simp)

theorem carveMeasure_init_lt {width height : Nat} (seed : Nat) :
    carveMeasure width height (initialCarveState seed) < generateFuel width height := by
  unfold carveMeasure generateFuel
  have h1 : unvisitedCount width height (initialCarveState seed).grid ≤ width * height := by
    unfold unvisitedCount
    calc ((cellFinset width height).filter _).card
        ≤ (cellFinset width height).card := Finset.card_filter_le _ _
      _ = width * height := by
          rw [cellFinset, Finset.card_product, Finset.card_range, Finset.card_range]
  have h2 : (initialCarveState seed).stack.length = 0 := rfl
  omega

theorem generate_some_final {width height : Nat} (seed : Nat) (hw : 1 ≤ width)
    (hh : 1 ≤ height) :
    ∃ g rng, generate width height seed = some (g, rng) ∧ CarveFinal width height g := by
  unfold generate
  exact carveLoop_some hw hh _ _ (carveInv_init hw hh seed) (carveMeasure_init_lt seed)

/-- C2: for every width ≥ 1 and height ≥ 1, `generate()` terminates (the fuel
given to the carve loop always suffices to reach the `break`) and returns a
grid in which every cell is reachable from every other cell through open
walls, with exactly `width*height - 1` internal walls removed — a spanning
tree over all cells. -/
theorem generate_spanning_tree (width height seed : Nat) (hw : 1 ≤ width)
    (hh : 1 ≤ height) :
    ∃ g rng, generate width height seed = some (g, rng) ∧
      (∀ p q, inBounds width height p → inBounds width height q → Reach g p q) ∧
      (edgeFinset width height g).card = width * height - 1 := by
  obtain ⟨g, rng, hgen, hfin⟩ := generate_some_final seed hw hh
  refine ⟨g, rng, hgen, ?_, by have := hfin.count; omega⟩
  intro p q hp hq
  have hsymR : Symmetric (adjOpen g) := by
    intro a b hab
    rcases hab with ⟨h1, h2⟩ | ⟨h1, h2⟩ | ⟨h1, h2⟩ | ⟨h1, h2⟩
    · right
      left
      refine ⟨h1, ?_⟩
      rw [h1, ← hfin.sym.1 a.1 a.2]
      exact h2
    · left
      refine ⟨h1, ?_⟩
      show (g (b.1, b.2)).walls.east = false
      rw [hfin.sym.1 b.1 b.2, ← h1]
      exact h2
    · right
      right
      right
      refine ⟨h1, ?_⟩
      rw [h1, ← hfin.sym.2 a.1 a.2]
      exact h2
    · right
      right
      left
      refine ⟨h1, ?_⟩
      show (g (b.1, b.2)).walls.south = false
      rw [hfin.sym.2 b.1 b.2, ← h1]
      exact h2
  have hsymReach : Symmetric (Reach g) := Relation.ReflTransGen.symmetric hsymR
  exact Relation.ReflTransGen.trans (hsymReach (hfin.reach00 p hp)) (hfin.reach00 q hq)

/-- Witness for C2 at the spec's concrete scenario seed 42, width 5, height 5
(24 removed walls). -/
theorem generate_spanning_tree_witness :
    ((1 ≤ 5 ∧ 1 ≤ 5) ∧
      ∃ g rng, generate 5 5 42 = some (g, rng) ∧
        (∀ p q, inBounds 5 5 p → inBounds 5 5 q → Reach g p q) ∧
        (edgeFinset 5 5 g).card = 5 * 5 - 1) :=
  ⟨⟨by decide, by decide⟩, generate_spanning_tree 5 5 42 (by decide) (by decide)⟩

theorem stepN_inv {width height : Nat} :
    ∀ (k : Nat) (st st' : CarveState), CarveInv width height st →
      stepN width height k st = some st' → CarveInv width height st' := by
  intro k
  induction k with
  | zero =>
    intro st st' hInv hstep
    simp only [stepN, Option.some_inj] at hstep
    exact hstep ▸ hInv
  | succ n ih =>
    intro st st' hInv hstep
    rw [stepN] at hstep
    cases hc : carveStep width height st with
    | next st1 =>
      rw [hc] at hstep
      exact ih st1 st' (carveStep_next_facts hInv hc).1 hstep
    | done g rng =>
      rw [hc] at hstep
      exact absurd hstep (by simp)

theorem wallSym_init (seed : Nat) : WallSym (initialCarveState seed).grid := by
  have hg : ∀ p, ((initialCarveState seed).grid p).walls = allWalls := by
    intro p
    show ((initializeGrid.setCell (0, 0) _) p).walls = allWalls
    unfold Grid.setCell initializeGrid
    split_ifs <;> rfl
  constructor <;> intro x z <;> rw [hg, hg] <;> rfl

/-- C6: wall symmetry holds at every point during and after generation: the
initial grid is symmetric, every state reached by any number of carve-loop
iterations has a symmetric grid (each `removeWall` clears the shared boundary
on both sides at once), and the final grid returned by `generate()` is
symmetric. -/
theorem wall_symmetry_invariant (width height seed : Nat) (hw : 1 ≤ width)
    (hh : 1 ≤ height) :
    WallSym (initialCarveState seed).grid ∧
      (∀ k st', stepN width height k (initialCarveState seed) = some st' →
        WallSym st'.grid) ∧
      (∀ g rng, generate width height seed = some (g, rng) → WallSym g) := by
  refine ⟨wallSym_init seed, ?_, ?_⟩
  · intro k st' hstep
    exact (stepN_inv k _ st' (carveInv_init hw hh seed) hstep).sym
  · intro g rng hgen
    obtain ⟨g0, rng0, hgen0, hfin⟩ := generate_some_final seed hw hh
    rw [hgen] at hgen0
    simp only [Option.some_inj, Prod.mk.injEq] at hgen0
    rw [hgen0.1]
    exact hfin.sym

/-- Witness for C6 at concrete inputs. -/
theorem wall_symmetry_invariant_witness :
    ((1 ≤ 3 ∧ 1 ≤ 3) ∧
      (WallSym (initialCarveState 1).grid ∧
        (∀ k st', stepN 3 3 k (initialCarveState 1) = some st' → WallSym st'.grid) ∧
        (∀ g rng, generate 3 3 1 = some (g, rng) → WallSym g))) :=
  ⟨⟨by decide, by decide⟩, wall_symmetry_invariant 3 3 1 (by decide) (by decide)⟩
